import Mathlib

/-!
Verification of the lexer of `src/interpreter.js` (the `homy` interpreter).

The JS `Lexer` class is embedded as explicit state passing over `LexState`.
Every loop of the source (`skipWhitespace`, the comment scanners, the
string/number/identifier scanners, `nextToken`'s comment recursion and the
`tokenize` driver) is given an explicit fuel parameter, because two of the
scanning loops genuinely diverge on some inputs: in JS, `isDigit(null)` is
`true` (`null >= '0'` and `null <= '9'` compare `ToNumber(null) = 0` with
`0` and `9`), so `readNumber` and `readIdentifierOrKeyword` never leave
their scan loop once `peek()` returns `null` at end of input.  A result of
`LexRes.fuelOut` means the fuel ran out; divergence of the source is
rendered as `fuelOut` for every fuel.
-/

namespace Homy

/-- Token types of the homy language, from the `TokenType` table of
`src/interpreter.js` (lines 65-130).  JS represents them as strings; the
extra constructor `protoLeak` stands for the values the JS property access
`KEYWORDS[value]` yields when `value` names an inherited member of
`Object.prototype` (for example `"toString"`): the lookup then returns that
member, a truthy function or object rather than a table entry, and it
flows into the token's `type` field through `KEYWORDS[value] ||
TokenType.IDENTIFIER`. -/
inductive TokenTy where
  | EOF | IDENTIFIER | NUMBER | STRING | BOOLEAN | NULL
  | NAME_APP_MINI | WEB_PACKAGE_MINI | WEB_MINI_VERSION | MINI_VERSION | MINI_APP_ICON
  | BODY | STYLE | CALL
  | FUNC | RETURN | IF | ELSE | FOR | WHILE | BREAK | CONTINUE | LET | CONST
  | ASSIGN | PLUS | MINUS | MULTIPLY | DIVIDE | MODULO
  | EQ | NEQ | LT | GT | LE | GE | AND | OR | NOT
  | LPAREN | RPAREN | LBRACE | RBRACE | LBRACKET | RBRACKET
  | COMMA | SEMICOLON | COLON | DOT | AT | SLASH
  | protoLeak (name : String)
deriving Repr

/-- Injective numeric/string code of a token type.  It exists only to give
`TokenTy` a linear-size equality decider: the auto-derived instance matches
on every pair of constructors, producing a quadratically deep term. -/
def TokenTy.code : TokenTy → Nat × String
  | .EOF => (0, "")
  | .IDENTIFIER => (1, "")
  | .NUMBER => (2, "")
  | .STRING => (3, "")
  | .BOOLEAN => (4, "")
  | .NULL => (5, "")
  | .NAME_APP_MINI => (6, "")
  | .WEB_PACKAGE_MINI => (7, "")
  | .WEB_MINI_VERSION => (8, "")
  | .MINI_VERSION => (9, "")
  | .MINI_APP_ICON => (10, "")
  | .BODY => (11, "")
  | .STYLE => (12, "")
  | .CALL => (13, "")
  | .FUNC => (14, "")
  | .RETURN => (15, "")
  | .IF => (16, "")
  | .ELSE => (17, "")
  | .FOR => (18, "")
  | .WHILE => (19, "")
  | .BREAK => (20, "")
  | .CONTINUE => (21, "")
  | .LET => (22, "")
  | .CONST => (23, "")
  | .ASSIGN => (24, "")
  | .PLUS => (25, "")
  | .MINUS => (26, "")
  | .MULTIPLY => (27, "")
  | .DIVIDE => (28, "")
  | .MODULO => (29, "")
  | .EQ => (30, "")
  | .NEQ => (31, "")
  | .LT => (32, "")
  | .GT => (33, "")
  | .LE => (34, "")
  | .GE => (35, "")
  | .AND => (36, "")
  | .OR => (37, "")
  | .NOT => (38, "")
  | .LPAREN => (39, "")
  | .RPAREN => (40, "")
  | .LBRACE => (41, "")
  | .RBRACE => (42, "")
  | .LBRACKET => (43, "")
  | .RBRACKET => (44, "")
  | .COMMA => (45, "")
  | .SEMICOLON => (46, "")
  | .COLON => (47, "")
  | .DOT => (48, "")
  | .AT => (49, "")
  | .SLASH => (50, "")
  | .protoLeak s => (51, s)

/-- Left inverse of `TokenTy.code`. -/
def TokenTy.ofCode : Nat × String → TokenTy
  | (0, _) => .EOF
  | (1, _) => .IDENTIFIER
  | (2, _) => .NUMBER
  | (3, _) => .STRING
  | (4, _) => .BOOLEAN
  | (5, _) => .NULL
  | (6, _) => .NAME_APP_MINI
  | (7, _) => .WEB_PACKAGE_MINI
  | (8, _) => .WEB_MINI_VERSION
  | (9, _) => .MINI_VERSION
  | (10, _) => .MINI_APP_ICON
  | (11, _) => .BODY
  | (12, _) => .STYLE
  | (13, _) => .CALL
  | (14, _) => .FUNC
  | (15, _) => .RETURN
  | (16, _) => .IF
  | (17, _) => .ELSE
  | (18, _) => .FOR
  | (19, _) => .WHILE
  | (20, _) => .BREAK
  | (21, _) => .CONTINUE
  | (22, _) => .LET
  | (23, _) => .CONST
  | (24, _) => .ASSIGN
  | (25, _) => .PLUS
  | (26, _) => .MINUS
  | (27, _) => .MULTIPLY
  | (28, _) => .DIVIDE
  | (29, _) => .MODULO
  | (30, _) => .EQ
  | (31, _) => .NEQ
  | (32, _) => .LT
  | (33, _) => .GT
  | (34, _) => .LE
  | (35, _) => .GE
  | (36, _) => .AND
  | (37, _) => .OR
  | (38, _) => .NOT
  | (39, _) => .LPAREN
  | (40, _) => .RPAREN
  | (41, _) => .LBRACE
  | (42, _) => .RBRACE
  | (43, _) => .LBRACKET
  | (44, _) => .RBRACKET
  | (45, _) => .COMMA
  | (46, _) => .SEMICOLON
  | (47, _) => .COLON
  | (48, _) => .DOT
  | (49, _) => .AT
  | (50, _) => .SLASH
  | (51, s) => .protoLeak s
  | _ => .EOF

instance : DecidableEq TokenTy := fun a b =>
  if h : a.code = b.code then
    .isTrue (by
      have ha : TokenTy.ofCode a.code = a := by cases a <;> rfl
      have hb : TokenTy.ofCode b.code = b := by cases b <;> rfl
      rw [← ha, ← hb, h])
  else
    .isFalse fun he => h (by rw [he])

/-- A token, from the `Token` class (lines 38-60): type, raw value, and the
1-based line/column of its first character. -/
structure Token where
  type : TokenTy
  value : List Char
  line : Nat
  column : Nat
deriving DecidableEq, Repr

/-- The three `LexerError` message templates thrown by the lexer, plus the
`readString` guard message (which is unreachable, because `readString` is
only called when `peek()` is a double quote). -/
inductive LexErrKind where
  | unterminatedComment
  | unterminatedString
  | unexpectedChar (c : Char)
  | unexpectedQuote (c : Option Char)
deriving DecidableEq, Repr

/-- A `LexerError` (lines 162-175): message kind plus 1-based position. -/
structure LexerError where
  kind : LexErrKind
  line : Nat
  column : Nat
deriving DecidableEq, Repr

/-- The mutable fields of the `Lexer` object (constructor, lines 185-191). -/
structure LexState where
  source : List Char
  currentPos : Nat
  line : Nat
  column : Nat
  tokens : List Token
deriving DecidableEq, Repr

/-- Outcome of a lexer step: success, a thrown `LexerError`, or fuel
exhaustion (the modelling artefact for the source's unbounded loops). -/
inductive LexRes (α : Type) where
  | ok (a : α)
  | err (e : LexerError)
  | fuelOut
deriving DecidableEq, Repr

/-- `peek` (lines 197-199): the character at `currentPos`, or null at EOF. -/
def peek (st : LexState) : Option Char := st.source[st.currentPos]?

/-- `advance` (lines 206-219): consume one character, updating line/column;
at EOF it returns null and leaves the state unchanged. -/
def advance (st : LexState) : Option Char × LexState :=
  match st.source[st.currentPos]? with
  | none => (none, st)
  | some c =>
    if c = '\n' then
      (some c, { st with currentPos := st.currentPos + 1, line := st.line + 1, column := 1 })
    else
      (some c, { st with currentPos := st.currentPos + 1, column := st.column + 1 })

/-- `addToken` (lines 228-230): push a token. -/
def addToken (st : LexState) (ty : TokenTy) (v : List Char)
    (startLine startColumn : Nat) : LexState :=
  { st with tokens := st.tokens ++ [⟨ty, v, startLine, startColumn⟩] }

/-- `isWhitespace` (lines 237-239); `isWhitespace(null)` is `false` in JS
(null is strictly equal to none of the four characters). -/
def isWhitespace : Option Char → Bool
  | none => false
  | some c => c = ' ' || c = '\t' || c = '\n' || c = '\r'

/-- The digit test on an actual character. -/
def isDigitChar (c : Char) : Bool := '0' ≤ c && c ≤ '9'

/-- `isDigit` (lines 246-248) applied to `peek()`'s result.  In JS
`isDigit(null)` is `true`: `null >= '0'` and `null <= '9'` coerce `null`
to `0` and the one-character strings to `0` and `9`. -/
def isDigit : Option Char → Bool
  | none => true
  | some c => isDigitChar c

/-- `isDigit` applied to a direct `source[i]` access (line 364).  An
out-of-range JS index yields `undefined`, and `undefined >= '0'` is
`false` (the coercion produces NaN), unlike the `null` returned by
`peek()`. -/
def isDigitUndef : Option Char → Bool
  | none => false
  | some c => isDigitChar c

/-- The alphabetic test on an actual character. -/
def isAlphaChar (c : Char) : Bool := ('a' ≤ c && c ≤ 'z') || ('A' ≤ c && c ≤ 'Z')

/-- `isAlpha` (lines 255-257); `isAlpha(null)` is `false` in JS (the
letter bounds coerce to NaN and every NaN comparison is false). -/
def isAlpha : Option Char → Bool
  | none => false
  | some c => isAlphaChar c

/-- `isAlphaNumeric` (lines 264-266).  Note that through `isDigit`,
`isAlphaNumeric(null)` is `true`. -/
def isAlphaNumeric (c : Option Char) : Bool :=
  isAlpha c || isDigit c || c == some '_'

/-- The `KEYWORDS` table (lines 135-157). -/
def keywordsTable : List (String × TokenTy) :=
  [("name_app_mini", .NAME_APP_MINI), ("web_package_mini", .WEB_PACKAGE_MINI),
   ("web_mini_version", .WEB_MINI_VERSION), ("mini_version", .MINI_VERSION),
   ("mini_app_icon", .MINI_APP_ICON), ("body", .BODY), ("style", .STYLE),
   ("Call", .CALL), ("func", .FUNC), ("return", .RETURN), ("if", .IF),
   ("else", .ELSE), ("for", .FOR), ("while", .WHILE), ("break", .BREAK),
   ("continue", .CONTINUE), ("let", .LET), ("const", .CONST),
   ("true", .BOOLEAN), ("false", .BOOLEAN), ("null", .NULL)]

/-- The string-keyed own properties of `Object.prototype`, all of which are
truthy (functions, or `Object.prototype` itself for the `__proto__`
accessor).  `KEYWORDS` is a plain object literal, so a property read on it
falls through to these when the key misses the table. -/
def objectPrototypeKeys : List String :=
  ["constructor", "hasOwnProperty", "isPrototypeOf", "propertyIsEnumerable",
   "toLocaleString", "toString", "valueOf", "__defineGetter__",
   "__defineSetter__", "__lookupGetter__", "__lookupSetter__", "__proto__"]

/-- The JS property read `KEYWORDS[value]`: an own entry of the table, else
an inherited `Object.prototype` member (modelled as `protoLeak`), else
`undefined` (modelled as `none`). -/
def keywordsGet (s : String) : Option TokenTy :=
  match keywordsTable.find? (fun kv => kv.1 == s) with
  | some kv => some kv.2
  | none => if s ∈ objectPrototypeKeys then some (.protoLeak s) else none

/-- `KEYWORDS[value] || TokenType.IDENTIFIER` (line 389): every table
entry and every leaked prototype member is truthy, so `IDENTIFIER` is used
exactly when the read yields `undefined`. -/
def identTokenType (s : String) : TokenTy := (keywordsGet s).getD .IDENTIFIER

/-- JS string concatenation `value += this.advance()`: appending `null`
(at EOF) appends the four characters of the string `"null"`. -/
def jsStr : Option Char → List Char
  | some c => [c]
  | none => "null".data

/-- Value stored by `addToken(ty, this.advance(), ...)` in the operator
branches.  `advance` there always follows a successful `peek`, so the
`none` case is unreachable; JS would store `null` itself. -/
def advValue : Option Char → List Char
  | some c => [c]
  | none => []

/-- `skipWhitespace` (lines 271-275). -/
def skipWhitespace : Nat → LexState → LexRes LexState
  | 0, _ => .fuelOut
  | fuel+1, st =>
    if isWhitespace (peek st) then skipWhitespace fuel (advance st).2
    else .ok st

/-- The single-line comment loop of `readComment` (lines 290-292):
`while (peek() !== null && peek() !== newline) advance()`. -/
def lineCommentLoop : Nat → LexState → LexRes LexState
  | 0, _ => .fuelOut
  | fuel+1, st =>
    match peek st with
    | none => .ok st
    | some c => if c = '\n' then .ok st else lineCommentLoop fuel (advance st).2

/-- The multi-line comment loop of `readComment` (lines 299-309).  When
`advance()` returns a star and `peek()` is a slash, the source performs
two further `advance()` calls (its comments claim they consume the star
and the slash, but the star is already consumed): they consume the slash
and then the character after it. -/
def blockCommentLoop : Nat → LexState → Nat → Nat → LexRes LexState
  | 0, _, _, _ => .fuelOut
  | fuel+1, st, startLine, startColumn =>
    match peek st with
    | none => .err ⟨.unterminatedComment, startLine, startColumn⟩
    | some _ =>
      let p := advance st
      if p.1 = some '*' ∧ peek p.2 = some '/' then
        .ok (advance (advance p.2).2).2
      else blockCommentLoop fuel p.2 startLine startColumn

/-- `readComment` (lines 281-319).  Returns `true` when a comment was
consumed.  When the slash is not followed by a second slash or a star, the
source "puts it back": `currentPos--`, then `line--` if the slash was at
column 1 of a line after the first, else `column--`.  The `line--` branch
is reproduced exactly as written. -/
def readComment (fuel : Nat) (st : LexState) : LexRes (Bool × LexState) :=
  let startLine := st.line
  let startColumn := st.column
  if peek st = some '/' then
    let st₁ := (advance st).2
    if peek st₁ = some '/' then
      match lineCommentLoop fuel (advance st₁).2 with
      | .ok st₂ => .ok (true, st₂)
      | .err e => .err e
      | .fuelOut => .fuelOut
    else if peek st₁ = some '*' then
      match blockCommentLoop fuel (advance st₁).2 startLine startColumn with
      | .ok st₂ => .ok (true, st₂)
      | .err e => .err e
      | .fuelOut => .fuelOut
    else
      let st₂ := { st₁ with currentPos := st₁.currentPos - 1 }
      let st₃ :=
        if startColumn = 1 ∧ st₂.line > 1 then { st₂ with line := st₂.line - 1 }
        else { st₂ with column := st₂.column - 1 }
      .ok (false, st₃)
  else .ok (false, st)

/-- The scan loop of `readString` (lines 337-341):
`while (peek() !== null && peek() !== quote) value += advance()`. -/
def stringLoop : Nat → LexState → List Char → LexRes (LexState × List Char)
  | 0, _, _ => .fuelOut
  | fuel+1, st, value =>
    match peek st with
    | none => .ok (st, value)
    | some c =>
      if c = '"' then .ok (st, value)
      else stringLoop fuel (advance st).2 (value ++ [c])

/-- `readString` (lines 326-349). -/
def readString (fuel : Nat) (st : LexState) : LexRes LexState :=
  let startLine := st.line
  let startColumn := st.column
  let p := advance st
  if p.1 ≠ some '"' then .err ⟨.unexpectedQuote p.1, startLine, startColumn⟩
  else
    match stringLoop fuel p.2 [] with
    | .ok (st₂, value) =>
      match peek st₂ with
      | none => .err ⟨.unterminatedString, startLine, startColumn⟩
      | some _ => .ok (addToken (advance st₂).2 .STRING value startLine startColumn)
    | .err e => .err e
    | .fuelOut => .fuelOut

/-- The digit scan loop of `readNumber` (lines 360-362 and 366-368):
`while (isDigit(peek())) value += advance()`.  At EOF, `isDigit(null)` is
`true` and `advance()` returns `null` without moving, so the loop never
exits: every fuel is exhausted. -/
def numberLoop : Nat → LexState → List Char → LexRes (LexState × List Char)
  | 0, _, _ => .fuelOut
  | fuel+1, st, value =>
    if isDigit (peek st) then
      let p := advance st
      numberLoop fuel p.2 (value ++ jsStr p.1)
    else .ok (st, value)

/-- `readNumber` (lines 355-372).  The fractional-part guard reads
`source[currentPos + 1]` directly, so an out-of-range access is
`undefined` (not `null`) and fails the digit test. -/
def readNumber (fuel : Nat) (st : LexState) : LexRes LexState :=
  let startLine := st.line
  let startColumn := st.column
  match numberLoop fuel st [] with
  | .ok (st₁, value) =>
    if peek st₁ = some '.' ∧ isDigitUndef st₁.source[st₁.currentPos + 1]? then
      let p := advance st₁
      match numberLoop fuel p.2 (value ++ jsStr p.1) with
      | .ok (st₃, value₂) => .ok (addToken st₃ .NUMBER value₂ startLine startColumn)
      | .err e => .err e
      | .fuelOut => .fuelOut
    else .ok (addToken st₁ .NUMBER value startLine startColumn)
  | .err e => .err e
  | .fuelOut => .fuelOut

/-- The scan loop of `readIdentifierOrKeyword` (lines 383-386):
`while (isAlphaNumeric(peek()) || peek() === hyphen) value += advance()`.
At EOF `isAlphaNumeric(null)` is `true` (through `isDigit`), so as with
`numberLoop` the loop never exits at end of input. -/
def identLoop : Nat → LexState → List Char → LexRes (LexState × List Char)
  | 0, _, _ => .fuelOut
  | fuel+1, st, value =>
    if isAlphaNumeric (peek st) || peek st == some '-' then
      let p := advance st
      identLoop fuel p.2 (value ++ jsStr p.1)
    else .ok (st, value)

/-- `readIdentifierOrKeyword` (lines 378-391). -/
def readIdentifierOrKeyword (fuel : Nat) (st : LexState) : LexRes LexState :=
  let startLine := st.line
  let startColumn := st.column
  match identLoop fuel st [] with
  | .ok (st₁, value) =>
      .ok (addToken st₁ (identTokenType (String.mk value)) value startLine startColumn)
  | .err e => .err e
  | .fuelOut => .fuelOut

/-- The operator/punctuator `switch` of `nextToken` (lines 434-512),
including the trailing `throw` for a character matched by no case.  A lone
ampersand or pipe throws inside its own case. -/
def operatorToken (char : Char) (st : LexState)
    (startLine startColumn : Nat) : LexRes LexState :=
  if char = '=' then
    let st₁ := (advance st).2
    if peek st₁ = some '=' then
      .ok (addToken (advance st₁).2 .EQ "==".data startLine startColumn)
    else .ok (addToken st₁ .ASSIGN "=".data startLine startColumn)
  else if char = '!' then
    let st₁ := (advance st).2
    if peek st₁ = some '=' then
      .ok (addToken (advance st₁).2 .NEQ "!=".data startLine startColumn)
    else .ok (addToken st₁ .NOT "!".data startLine startColumn)
  else if char = '<' then
    let st₁ := (advance st).2
    if peek st₁ = some '=' then
      .ok (addToken (advance st₁).2 .LE "<=".data startLine startColumn)
    else .ok (addToken st₁ .LT "<".data startLine startColumn)
  else if char = '>' then
    let st₁ := (advance st).2
    if peek st₁ = some '=' then
      .ok (addToken (advance st₁).2 .GE ">=".data startLine startColumn)
    else .ok (addToken st₁ .GT ">".data startLine startColumn)
  else if char = '&' then
    let st₁ := (advance st).2
    if peek st₁ = some '&' then
      .ok (addToken (advance st₁).2 .AND "&&".data startLine startColumn)
    else .err ⟨.unexpectedChar char, startLine, startColumn⟩
  else if char = '|' then
    let st₁ := (advance st).2
    if peek st₁ = some '|' then
      .ok (addToken (advance st₁).2 .OR "||".data startLine startColumn)
    else .err ⟨.unexpectedChar char, startLine, startColumn⟩
  else if char = '+' then
    let p := advance st
    .ok (addToken p.2 .PLUS (advValue p.1) startLine startColumn)
  else if char = '-' then
    let p := advance st
    .ok (addToken p.2 .MINUS (advValue p.1) startLine startColumn)
  else if char = '*' then
    let p := advance st
    .ok (addToken p.2 .MULTIPLY (advValue p.1) startLine startColumn)
  else if char = '%' then
    let p := advance st
    .ok (addToken p.2 .MODULO (advValue p.1) startLine startColumn)
  else if char = '(' then
    let p := advance st
    .ok (addToken p.2 .LPAREN (advValue p.1) startLine startColumn)
  else if char = ')' then
    let p := advance st
    .ok (addToken p.2 .RPAREN (advValue p.1) startLine startColumn)
  else if char = '{' then
    let p := advance st
    .ok (addToken p.2 .LBRACE (advValue p.1) startLine startColumn)
  else if char = '}' then
    let p := advance st
    .ok (addToken p.2 .RBRACE (advValue p.1) startLine startColumn)
  else if char = '[' then
    let p := advance st
    .ok (addToken p.2 .LBRACKET (advValue p.1) startLine startColumn)
  else if char = ']' then
    let p := advance st
    .ok (addToken p.2 .RBRACKET (advValue p.1) startLine startColumn)
  else if char = ',' then
    let p := advance st
    .ok (addToken p.2 .COMMA (advValue p.1) startLine startColumn)
  else if char = ';' then
    let p := advance st
    .ok (addToken p.2 .SEMICOLON (advValue p.1) startLine startColumn)
  else if char = ':' then
    let p := advance st
    .ok (addToken p.2 .COLON (advValue p.1) startLine startColumn)
  else if char = '.' then
    let p := advance st
    .ok (addToken p.2 .DOT (advValue p.1) startLine startColumn)
  else if char = '@' then
    let p := advance st
    .ok (addToken p.2 .AT (advValue p.1) startLine startColumn)
  else if char = '/' then
    let p := advance st
    .ok (addToken p.2 .SLASH (advValue p.1) startLine startColumn)
  else .err ⟨.unexpectedChar char, startLine, startColumn⟩

/-- `nextToken` (lines 399-513).  The EOF check `currentPos >= length`
(line 405) is exactly `peek() === null`, rendered here as the match on
`peek`.  `char` is read before `readComment` runs, matching the source;
the state `readComment` hands back (possibly with the buggy putback
applied) is what the chosen branch continues from. -/
def nextToken : Nat → LexState → LexRes LexState
  | 0, _ => .fuelOut
  | fuel+1, st =>
    match skipWhitespace (fuel+1) st with
    | .err e => .err e
    | .fuelOut => .fuelOut
    | .ok st₁ =>
      let startLine := st₁.line
      let startColumn := st₁.column
      match peek st₁ with
      | none => .ok (addToken st₁ .EOF "EOF".data startLine startColumn)
      | some char =>
        match readComment fuel st₁ with
        | .err e => .err e
        | .fuelOut => .fuelOut
        | .ok (true, st₂) => nextToken fuel st₂
        | .ok (false, st₂) =>
          if char = '"' then readString fuel st₂
          else if isDigit (some char) then readNumber fuel st₂
          else if isAlpha (some char) || char == '_' then
            readIdentifierOrKeyword fuel st₂
          else operatorToken char st₂ startLine startColumn

/-- The driver loop of `tokenize` (lines 520-522):
`while (currentPos < source.length) nextToken()`. -/
def tokenizeLoop : Nat → LexState → LexRes LexState
  | 0, _ => .fuelOut
  | fuel+1, st =>
    if st.currentPos < st.source.length then
      match nextToken (fuel+1) st with
      | .ok st₁ => tokenizeLoop fuel st₁
      | .err e => .err e
      | .fuelOut => .fuelOut
    else .ok st

/-- The fresh lexer state built by the constructor (lines 185-191). -/
def initState (source : List Char) : LexState := ⟨source, 0, 1, 1, []⟩

/-- `tokenize` (lines 519-525): run the driver loop, then unconditionally
append one more EOF token at the final line/column. -/
def tokenize (fuel : Nat) (source : List Char) : LexRes (List Token) :=
  match tokenizeLoop fuel (initState source) with
  | .ok st => .ok (st.tokens ++ [⟨.EOF, "EOF".data, st.line, st.column⟩])
  | .err e => .err e
  | .fuelOut => .fuelOut

/-- Number of EOF-typed tokens in a token list. -/
def countEOF (ts : List Token) : Nat := ts.countP (fun t => t.type == .EOF)

/-- The first token of a successful `tokenize` result, when present. -/
def firstToken : LexRes (List Token) → Option Token
  | .ok (t :: _) => some t
  | _ => none

/-- Line/column bookkeeping of `advance`, as a pure function: fold the
consumed characters over a (line, column) pair. -/
def posAfter (p : Nat × Nat) : List Char → Nat × Nat
  | [] => p
  | c :: cs => posAfter (if c = '\n' then (p.1 + 1, 1) else (p.1, p.2 + 1)) cs

/-- Iterate `advance` a given number of times. -/
def advanceN (st : LexState) : Nat → LexState
  | 0 => st
  | n + 1 => advanceN (advance st).2 n

/-- A character that may start an identifier lexeme (line 428 of
`nextToken`): a letter or an underscore. -/
def isIdentStart (c : Char) : Bool := isAlphaChar c || c = '_'

/-- A character the identifier scan loop absorbs (line 383): letter,
digit, underscore or hyphen. -/
def isIdentPart (c : Char) : Bool :=
  isAlphaChar c || isDigitChar c || c = '_' || c = '-'

/-- Characters matched by some rule of `nextToken`: whitespace, a string
opener, a digit, an identifier start, or one of the `switch` cases.  Every
other character reaches the trailing `throw`. -/
def lexMatched (c : Char) : Bool :=
  isWhitespace (some c) || c = '"' || isDigitChar c || isIdentStart c ||
  c ∈ ['=', '!', '<', '>', '&', '|', '+', '-', '*', '%', '(', ')', '{', '}',
       '[', ']', ',', ';', ':', '.', '@', '/']

/-! ## State-stepping lemmas -/

theorem advance_source (st : LexState) : (advance st).2.source = st.source := by
  cases h : st.source[st.currentPos]? <;> simp [advance, h] <;> split <;> rfl

theorem advance_tokens (st : LexState) : (advance st).2.tokens = st.tokens := by
  cases h : st.source[st.currentPos]? <;> simp [advance, h] <;> split <;> rfl

theorem peek_eq_head_drop (st : LexState) :
    peek st = (st.source.drop st.currentPos).head? := by
  rw [peek, List.head?_drop]

theorem advance_cons {st : LexState} {c : Char} {t : List Char}
    (h : st.source.drop st.currentPos = c :: t) :
    advance st = (some c,
      if c = '\n' then
        { st with currentPos := st.currentPos + 1, line := st.line + 1, column := 1 }
      else
        { st with currentPos := st.currentPos + 1, column := st.column + 1 }) := by
  have hp : st.source[st.currentPos]? = some c := by
    rw [← List.head?_drop, h]; rfl
  simp only [advance, hp]
  split <;> rfl

theorem drop_advance {st : LexState} {c : Char} {t : List Char}
    (h : st.source.drop st.currentPos = c :: t) :
    (advance st).2.source.drop (advance st).2.currentPos = t := by
  rw [advance_cons h]
  split <;>
    simp only [List.drop] <;>
    rw [← List.tail_drop, h] <;> rfl

theorem advanceN_add (st : LexState) (m n : Nat) :
    advanceN st (m + n) = advanceN (advanceN st m) n := by
  induction m generalizing st with
  | zero => simp [advanceN]
  | succ m ih =>
    have : m + 1 + n = (m + n) + 1 := by omega
    rw [this, advanceN, advanceN, ih]

theorem advanceN_state : ∀ (cs : List Char) (st : LexState) (r : List Char),
    st.source.drop st.currentPos = cs ++ r →
    advanceN st cs.length =
      { st with currentPos := st.currentPos + cs.length,
                line := (posAfter (st.line, st.column) cs).1,
                column := (posAfter (st.line, st.column) cs).2 } := by
  intro cs
  induction cs with
  | nil => intro st r _; simp [advanceN, posAfter]
  | cons c cs ih =>
    intro st r h
    have hd : st.source.drop st.currentPos = c :: (cs ++ r) := by simpa using h
    have hstep := advance_cons hd
    have hdrop := drop_advance hd
    have := ih (advance st).2 r hdrop
    rw [List.length_cons, advanceN, this, hstep]
    by_cases hc : c = '\n' <;>
      simp [hc, posAfter, Nat.add_assoc, Nat.add_comm 1 cs.length]

theorem drop_advanceN {cs : List Char} {st : LexState} {r : List Char}
    (h : st.source.drop st.currentPos = cs ++ r) :
    (advanceN st cs.length).source.drop (advanceN st cs.length).currentPos = r := by
  rw [advanceN_state cs st r h]
  simp only []
  rw [← List.drop_drop, h, List.drop_left]

theorem posAfter_append (cs ds : List Char) : ∀ p,
    posAfter p (cs ++ ds) = posAfter (posAfter p cs) ds := by
  induction cs with
  | nil => intro p; rfl
  | cons c cs ih => intro p; simp [posAfter, ih]

theorem posAfter_no_newline : ∀ (cs : List Char) (p : Nat × Nat), '\n' ∉ cs →
    posAfter p cs = (p.1, p.2 + cs.length) := by
  intro cs
  induction cs with
  | nil => intro p _; rfl
  | cons c cs ih =>
    intro p h
    have hc : ¬ c = '\n' := fun hh => h (by simp [hh])
    have := ih (p.1, p.2 + 1) (fun hh => h (by simp [hh]))
    simp [posAfter, hc, this, Nat.add_assoc, Nat.add_comm 1 cs.length]

theorem posAfter_newlines : ∀ (a : Nat) (l : Nat),
    posAfter (l, 1) (List.replicate a '\n') = (l + a, 1) := by
  intro a
  induction a with
  | zero => intro l; rfl
  | succ a ih =>
    intro l
    have := ih (l + 1)
    simp [List.replicate, posAfter, this, Nat.add_assoc, Nat.add_comm 1 a]

theorem posAfter_spaces (b : Nat) (p : Nat × Nat) :
    posAfter p (List.replicate b ' ') = (p.1, p.2 + b) := by
  rw [posAfter_no_newline]
  · simp
  · intro h
    have := List.eq_of_mem_replicate h
    simp at this

/-! ## Run lemmas: each scan loop consumes its maximal prefix -/

theorem skipWhitespace_stop {f : Nat} {st : LexState}
    (h : isWhitespace (peek st) = false) :
    skipWhitespace (f + 1) st = .ok st := by
  simp [skipWhitespace, h]

theorem skipWhitespace_run : ∀ (cs : List Char) (f : Nat) (st : LexState) (r : List Char),
    st.source.drop st.currentPos = cs ++ r →
    (∀ x ∈ cs, isWhitespace (some x) = true) →
    isWhitespace r.head? = false →
    cs.length < f →
    skipWhitespace f st = .ok (advanceN st cs.length) := by
  intro cs
  induction cs with
  | nil =>
    intro f st r h hcs hr hf
    cases f with
    | zero => omega
    | succ f =>
      have hp : peek st = r.head? := by rw [peek_eq_head_drop]; simpa using congrArg List.head? h
      rw [skipWhitespace]
      simp [hp, hr, advanceN]
  | cons c cs ih =>
    intro f st r h hcs hr hf
    cases f with
    | zero => omega
    | succ f =>
      have hd : st.source.drop st.currentPos = c :: (cs ++ r) := by simpa using h
      have hp : peek st = some c := by rw [peek_eq_head_drop, hd]; rfl
      have hw : isWhitespace (peek st) = true := by rw [hp]; exact hcs c (by simp)
      rw [skipWhitespace]
      simp only [hw, if_true]
      rw [ih f (advance st).2 r (drop_advance hd) (fun x hx => hcs x (by simp [hx]))
        hr (by simpa using Nat.lt_of_succ_lt_succ hf)]
      rfl

theorem stringLoop_run : ∀ (cs : List Char) (f : Nat) (st : LexState) (v r : List Char),
    st.source.drop st.currentPos = cs ++ r →
    (∀ x ∈ cs, x ≠ '"') →
    (∀ c, r.head? = some c → c = '"') →
    cs.length < f →
    stringLoop f st v = .ok (advanceN st cs.length, v ++ cs) := by
  intro cs
  induction cs with
  | nil =>
    intro f st v r h hcs hr hf
    cases f with
    | zero => omega
    | succ f =>
      have hp : peek st = r.head? := by rw [peek_eq_head_drop]; simpa using congrArg List.head? h
      rw [stringLoop]
      cases hr2 : r.head? with
      | none => simp [hp, hr2, advanceN]
      | some c =>
        have hc := hr c hr2
        subst hc
        simp [hp, hr2, advanceN]
  | cons c cs ih =>
    intro f st v r h hcs hr hf
    cases f with
    | zero => omega
    | succ f =>
      have hd : st.source.drop st.currentPos = c :: (cs ++ r) := by simpa using h
      have hp : peek st = some c := by rw [peek_eq_head_drop, hd]; rfl
      have hcq : ¬ c = '"' := hcs c (by simp)
      rw [stringLoop]
      simp only [hp, hcq, if_false]
      rw [ih f (advance st).2 (v ++ [c]) r (drop_advance hd)
        (fun x hx => hcs x (by simp [hx])) hr (by simpa using Nat.lt_of_succ_lt_succ hf)]
      simp [advanceN]

theorem numberLoop_run : ∀ (cs : List Char) (f : Nat) (st : LexState) (v r : List Char),
    st.source.drop st.currentPos = cs ++ r →
    (∀ x ∈ cs, isDigitChar x = true) →
    isDigit r.head? = false →
    cs.length < f →
    numberLoop f st v = .ok (advanceN st cs.length, v ++ cs) := by
  intro cs
  induction cs with
  | nil =>
    intro f st v r h hcs hr hf
    cases f with
    | zero => omega
    | succ f =>
      have hp : peek st = r.head? := by rw [peek_eq_head_drop]; simpa using congrArg List.head? h
      rw [numberLoop]
      simp [hp, hr, advanceN]
  | cons c cs ih =>
    intro f st v r h hcs hr hf
    cases f with
    | zero => omega
    | succ f =>
      have hd : st.source.drop st.currentPos = c :: (cs ++ r) := by simpa using h
      have hp : peek st = some c := by rw [peek_eq_head_drop, hd]; rfl
      have hdig : isDigit (peek st) = true := by rw [hp]; exact hcs c (by simp)
      rw [numberLoop]
      simp only [hdig, if_true]
      have h1 : (advance st).1 = some c := by rw [advance_cons hd]
      rw [h1]
      simp only [jsStr]
      rw [ih f (advance st).2 (v ++ [c]) r (drop_advance hd)
        (fun x hx => hcs x (by simp [hx])) hr (by simpa using Nat.lt_of_succ_lt_succ hf)]
      simp [advanceN]

theorem identPart_continue {c : Char} (h : isIdentPart c = true) :
    (isAlphaNumeric (some c) || (some c : Option Char) == some '-') = true := by
  simp only [isIdentPart, isAlphaNumeric, isAlpha, isDigit, Bool.or_eq_true,
    beq_iff_eq, Option.some.injEq, decide_eq_true_eq] at h ⊢
  tauto

theorem identLoop_run : ∀ (cs : List Char) (f : Nat) (st : LexState) (v r : List Char),
    st.source.drop st.currentPos = cs ++ r →
    (∀ x ∈ cs, isIdentPart x = true) →
    (isAlphaNumeric r.head? || r.head? == some '-') = false →
    cs.length < f →
    identLoop f st v = .ok (advanceN st cs.length, v ++ cs) := by
  intro cs
  induction cs with
  | nil =>
    intro f st v r h hcs hr hf
    cases f with
    | zero => omega
    | succ f =>
      have hp : peek st = r.head? := by rw [peek_eq_head_drop]; simpa using congrArg List.head? h
      rw [identLoop]
      simp [hp, hr, advanceN]
  | cons c cs ih =>
    intro f st v r h hcs hr hf
    cases f with
    | zero => omega
    | succ f =>
      have hd : st.source.drop st.currentPos = c :: (cs ++ r) := by simpa using h
      have hp : peek st = some c := by rw [peek_eq_head_drop, hd]; rfl
      have hcont : (isAlphaNumeric (peek st) || peek st == some '-') = true := by
        rw [hp]; exact identPart_continue (hcs c (by simp))
      rw [identLoop]
      simp only [hcont, if_true]
      have h1 : (advance st).1 = some c := by rw [advance_cons hd]
      rw [h1]
      simp only [jsStr]
      rw [ih f (advance st).2 (v ++ [c]) r (drop_advance hd)
        (fun x hx => hcs x (by simp [hx])) hr (by simpa using Nat.lt_of_succ_lt_succ hf)]
      simp [advanceN]

theorem lineCommentLoop_run : ∀ (cs : List Char) (f : Nat) (st : LexState) (r : List Char),
    st.source.drop st.currentPos = cs ++ r →
    (∀ x ∈ cs, x ≠ '\n') →
    (r.head? = none ∨ r.head? = some '\n') →
    cs.length < f →
    lineCommentLoop f st = .ok (advanceN st cs.length) := by
  intro cs
  induction cs with
  | nil =>
    intro f st r h hcs hr hf
    cases f with
    | zero => omega
    | succ f =>
      have hp : peek st = r.head? := by rw [peek_eq_head_drop]; simpa using congrArg List.head? h
      rw [lineCommentLoop]
      rcases hr with hr | hr <;> simp [hp, hr, advanceN]
  | cons c cs ih =>
    intro f st r h hcs hr hf
    cases f with
    | zero => omega
    | succ f =>
      have hd : st.source.drop st.currentPos = c :: (cs ++ r) := by simpa using h
      have hp : peek st = some c := by rw [peek_eq_head_drop, hd]; rfl
      have hcq : ¬ c = '\n' := hcs c (by simp)
      rw [lineCommentLoop]
      simp only [hp, hcq, if_false]
      rw [ih f (advance st).2 r (drop_advance hd)
        (fun x hx => hcs x (by simp [hx])) hr (by simpa using Nat.lt_of_succ_lt_succ hf)]
      rfl

/-! ## Bridges between `drop`-form source positions and the lexer tests -/

theorem peek_of_drop {st : LexState} {c : Char} {t : List Char}
    (h : st.source.drop st.currentPos = c :: t) : peek st = some c := by
  rw [peek_eq_head_drop, h]; rfl

theorem peek_none_of_drop {st : LexState}
    (h : st.source.drop st.currentPos = []) : peek st = none := by
  rw [peek_eq_head_drop, h]; rfl

theorem pos_lt_of_drop {st : LexState} {c : Char} {t : List Char}
    (h : st.source.drop st.currentPos = c :: t) :
    st.currentPos < st.source.length := by
  have hl := congrArg List.length h
  rw [List.length_drop] at hl
  simp at hl
  omega

theorem pos_ge_of_drop {st : LexState}
    (h : st.source.drop st.currentPos = []) :
    st.source.length ≤ st.currentPos := by
  have hl := congrArg List.length h
  rw [List.length_drop] at hl
  simp at hl
  omega

theorem readComment_no_slash (f : Nat) (st : LexState) (h : ¬ peek st = some '/') :
    readComment f st = .ok (false, st) := by
  simp [readComment, h]

/-! ## `readString` on a closed and on an unterminated literal -/

theorem readString_closed {content r : List Char} {f : Nat} {st : LexState}
    (h : st.source.drop st.currentPos = '"' :: (content ++ '"' :: r))
    (hc : '"' ∉ content) (hf : content.length < f) :
    readString f st =
      .ok (addToken (advanceN st (content.length + 2)) .STRING content
        st.line st.column) := by
  have h1 : (advance st).1 = some '"' := by rw [advance_cons h]
  have hd1 : (advance st).2.source.drop (advance st).2.currentPos = content ++ '"' :: r :=
    drop_advance h
  have hrun := stringLoop_run content f (advance st).2 [] ('"' :: r) hd1
    (fun x hx => by rintro rfl; exact hc hx)
    (fun c hc' => by simpa using hc'.symm) hf
  have hd2 := drop_advanceN hd1
  have hp2 : peek (advanceN (advance st).2 content.length) = some '"' :=
    peek_of_drop hd2
  rw [readString]
  simp only [h1, ne_eq, not_true_eq_false, if_false, hrun, List.nil_append, hp2]
  have hN : advanceN st (content.length + 2) =
      (advance (advanceN (advance st).2 content.length)).2 := by
    rw [show content.length + 2 = 1 + content.length + 1 from by omega,
      advanceN_add, advanceN_add]
    rfl
  rw [hN]

theorem readString_unterminated {content : List Char} {f : Nat} {st : LexState}
    (h : st.source.drop st.currentPos = '"' :: content)
    (hc : '"' ∉ content) (hf : content.length < f) :
    readString f st = .err ⟨.unterminatedString, st.line, st.column⟩ := by
  have h1 : (advance st).1 = some '"' := by rw [advance_cons h]
  have hd1 : (advance st).2.source.drop (advance st).2.currentPos = content := drop_advance h
  have hrun := stringLoop_run content f (advance st).2 [] [] (by simpa using hd1)
    (fun x hx => by rintro rfl; exact hc hx)
    (fun c hc' => by simp at hc') hf
  have hd2 := drop_advanceN (r := []) (by simpa using hd1)
  have hp2 : peek (advanceN (advance st).2 content.length) = none :=
    peek_none_of_drop hd2
  rw [readString]
  simp only [h1, ne_eq, not_true_eq_false, if_false, hrun, List.nil_append, hp2]

/-- Running `skipWhitespace` from the initial state over a prefix of `a`
newlines and then `b` spaces: position `a + b`, line `1 + a`, column
`1 + b`. -/
theorem skipWhitespace_ws_prefix (a b : Nat) (rest : List Char) (f : Nat)
    (hrest : isWhitespace rest.head? = false) (hf : a + b < f) :
    skipWhitespace f (initState (List.replicate a '\n' ++ (List.replicate b ' ' ++ rest))) =
      .ok ⟨List.replicate a '\n' ++ (List.replicate b ' ' ++ rest), a + b, 1 + a, 1 + b, []⟩ := by
  have hdrop : (initState (List.replicate a '\n' ++ (List.replicate b ' ' ++ rest))).source.drop
      (initState (List.replicate a '\n' ++ (List.replicate b ' ' ++ rest))).currentPos
      = (List.replicate a '\n' ++ List.replicate b ' ') ++ rest := by
    simp [initState]
  have hws : ∀ x ∈ List.replicate a '\n' ++ List.replicate b ' ',
      isWhitespace (some x) = true := by
    intro x hx
    rcases List.mem_append.mp hx with hx | hx <;>
      rw [List.eq_of_mem_replicate hx] <;> rfl
  have hrun := skipWhitespace_run (List.replicate a '\n' ++ List.replicate b ' ') f
    (initState (List.replicate a '\n' ++ (List.replicate b ' ' ++ rest))) rest hdrop hws hrest
    (by simp; omega)
  rw [hrun, advanceN_state _ _ _ hdrop]
  have hpos : posAfter ((initState (List.replicate a '\n' ++ (List.replicate b ' ' ++ rest))).line,
      (initState (List.replicate a '\n' ++ (List.replicate b ' ' ++ rest))).column)
      (List.replicate a '\n' ++ List.replicate b ' ') = (1 + a, 1 + b) := by
    show posAfter (1, 1) _ = _
    rw [posAfter_append, posAfter_newlines, posAfter_spaces]
  rw [hpos]
  simp [initState]

/-- Path of `nextToken` through whitespace skipping and `readComment` when
the current character is not whitespace and not a slash: the branch
dispatch on the peeked character remains. -/
theorem nextToken_dispatch {f : Nat} {st : LexState} {x : Char}
    (hws : isWhitespace (some x) = false)
    (hp : peek st = some x) (hns : x ≠ '/') :
    nextToken (f + 1) st =
      if x = '"' then readString f st
      else if isDigit (some x) then readNumber f st
      else if isAlpha (some x) || x == '_' then readIdentifierOrKeyword f st
      else operatorToken x st st.line st.column := by
  rw [nextToken]
  rw [skipWhitespace_stop (by rw [hp]; exact hws)]
  simp only [hp]
  rw [readComment_no_slash f st (by rw [hp]; simp [hns])]

/-! ## Divergence of the scan loops at end of input -/

/-- Once `peek()` is null, `numberLoop` never exits: `isDigit(null)` is
`true` and `advance()` does not move, so every fuel is exhausted. -/
theorem numberLoop_stuck (fuel : Nat) : ∀ st v, st.source.length ≤ st.currentPos →
    numberLoop fuel st v = .fuelOut := by
  induction fuel with
  | zero => intro st v _; rfl
  | succ fuel ih =>
    intro st v h
    have hp : st.source[st.currentPos]? = none := List.getElem?_eq_none h
    simp [numberLoop, peek, hp, isDigit, advance]
    exact ih st _ h

/-- Once `peek()` is null, `identLoop` never exits, for the same reason
(`isAlphaNumeric(null)` is `true` through `isDigit`). -/
theorem identLoop_stuck (fuel : Nat) : ∀ st v, st.source.length ≤ st.currentPos →
    identLoop fuel st v = .fuelOut := by
  induction fuel with
  | zero => intro st v _; rfl
  | succ fuel ih =>
    intro st v h
    have hp : st.source[st.currentPos]? = none := List.getElem?_eq_none h
    simp [identLoop, peek, hp, isAlphaNumeric, isAlpha, isDigit, advance]
    exact ih st _ h

/-- Claim C2, failing input: the source text consisting of the single
digit `5`, and the source text consisting of the single letter `x`.  The
claim says `tokenize` terminates on every finite source, in particular on
sources ending in a digit or an identifier character; the code instead
loops forever there (rendered as `fuelOut` for every fuel). -/
theorem tokenize_trailing_digit_or_ident_diverges (fuel : Nat) :
    tokenize fuel ['5'] = .fuelOut ∧ tokenize fuel ['x'] = .fuelOut := by
  have hnum : ∀ f, numberLoop f (⟨['5'], 0, 1, 1, []⟩ : LexState) [] = .fuelOut := by
    intro f
    cases f with
    | zero => rfl
    | succ f' =>
      have h := numberLoop_stuck f' ⟨['5'], 1, 1, 2, []⟩ ['5'] (by decide)
      simpa [numberLoop, peek, isDigit, isDigitChar, advance, jsStr] using h
  have hid : ∀ f, identLoop f (⟨['x'], 0, 1, 1, []⟩ : LexState) [] = .fuelOut := by
    intro f
    cases f with
    | zero => rfl
    | succ f' =>
      have h := identLoop_stuck f' ⟨['x'], 1, 1, 2, []⟩ ['x'] (by decide)
      simpa [identLoop, peek, isAlphaNumeric, isAlpha, isAlphaChar, isDigit,
        isDigitChar, advance, jsStr] using h
  constructor
  · cases fuel with
    | zero => rfl
    | succ f =>
      have h1 : nextToken (f + 1) (⟨['5'], 0, 1, 1, []⟩ : LexState) = .fuelOut := by
        cases f with
        | zero => rfl
        | succ f' =>
          simp [nextToken, skipWhitespace, peek, isWhitespace,
            readComment, advance, isDigit, isDigitChar, readNumber, hnum]
      simp [tokenize, tokenizeLoop, initState, h1]
  · cases fuel with
    | zero => rfl
    | succ f =>
      have h1 : nextToken (f + 1) (⟨['x'], 0, 1, 1, []⟩ : LexState) = .fuelOut := by
        cases f with
        | zero => rfl
        | succ f' =>
          simp [nextToken, skipWhitespace, peek, isWhitespace,
            readComment, advance, isDigit, isDigitChar, isAlpha, isAlphaChar,
            readIdentifierOrKeyword, hid]
      simp [tokenize, tokenizeLoop, initState, h1]

/-! ## Concrete evaluations exhibiting the other code bugs -/

/-- Claim C1 counterexample: tokenizing the one-space source succeeds with
TWO end-of-input tokens, not exactly one.  `nextToken` emits an EOF token
after the trailing whitespace moves `currentPos` to the end, and
`tokenize` unconditionally appends a second one. -/
theorem tokenize_single_space_two_eof_tokens :
    ∃ ts, tokenize 10 [' '] = .ok ts ∧ countEOF ts = 2 ∧ ¬ countEOF ts = 1 :=
  ⟨[⟨.EOF, "EOF".data, 1, 2⟩, ⟨.EOF, "EOF".data, 1, 2⟩], by decide, by decide, by decide⟩

/-- Claim C3, failing input `/**/;;`: the block-comment close consumes one
character beyond the closing star-slash (the source's two `advance()`
calls consume the slash and the first semicolon), so only ONE semicolon
token is emitted; the space-replaced source ` ;;` yields two. -/
theorem block_comment_swallows_next_char :
    tokenize 50 "/**/;;".data =
      .ok [⟨.SEMICOLON, [';'], 1, 6⟩, ⟨.EOF, "EOF".data, 1, 7⟩] ∧
    tokenize 50 " ;;".data =
      .ok [⟨.SEMICOLON, [';'], 1, 2⟩, ⟨.SEMICOLON, [';'], 1, 3⟩,
           ⟨.EOF, "EOF".data, 1, 4⟩] := by
  constructor <;> decide

/-- Claim C4, failing input: newline, slash, `x`, semicolon.  The lone
slash at column 1 of line 2 makes `readComment`'s putback decrement
`line` (which `advance` never incremented) instead of restoring `column`,
so the SLASH token itself is still placed correctly at (2,1) but every
following token carries a corrupted position: `x` is reported at (1,3)
though its first character sits at line 2, column 2. -/
theorem slash_at_column_one_corrupts_positions :
    tokenize 50 ['\n', '/', 'x', ';'] =
      .ok [⟨.SLASH, ['/'], 2, 1⟩, ⟨.IDENTIFIER, ['x'], 1, 3⟩,
           ⟨.SEMICOLON, [';'], 1, 4⟩, ⟨.EOF, "EOF".data, 1, 5⟩] := by
  decide

/-- Claim C5, failing input `toString;`: `KEYWORDS[value]` falls through
to `Object.prototype`, so the lexeme `toString` is reclassified into the
leaked prototype member instead of the IDENTIFIER kind the claim (and the
keyword-table intent) prescribes. -/
theorem keyword_lookup_leaks_object_prototype :
    tokenize 50 "toString;".data =
      .ok [⟨.protoLeak "toString", "toString".data, 1, 1⟩,
           ⟨.SEMICOLON, [';'], 1, 9⟩, ⟨.EOF, "EOF".data, 1, 10⟩] ∧
    TokenTy.protoLeak "toString" ≠ .IDENTIFIER := by
  constructor <;> decide

/-! ## Claim C6: string literals are taken verbatim -/

/-- Claim C6: for every string literal that closes before end-of-input,
the STRING token's value is exactly the character sequence between the
quotes, with no escape processing — the content may contain backslashes
and newlines and they are all kept literally. -/
theorem string_literal_taken_verbatim (content : List Char) (hc : '"' ∉ content) :
    ∃ l c, tokenize (content.length + 6) ('"' :: (content ++ ['"'])) =
      .ok [⟨.STRING, content, 1, 1⟩, ⟨.EOF, "EOF".data, l, c⟩] := by
  have hdrop : (initState ('"' :: (content ++ ['"']))).source.drop
      (initState ('"' :: (content ++ ['"']))).currentPos
      = '"' :: (content ++ '"' :: []) := by
    simp [initState]
  have hp : peek (initState ('"' :: (content ++ ['"']))) = some '"' := peek_of_drop hdrop
  have hread := readString_closed (f := content.length + 5) hdrop hc (by omega)
  have hAdv := advanceN_state ('"' :: (content ++ ['"']))
    (initState ('"' :: (content ++ ['"']))) [] (by simp [initState])
  rw [show ('"' :: (content ++ ['"'])).length = content.length + 2 by simp] at hAdv
  have hnext : nextToken (content.length + 5 + 1) (initState ('"' :: (content ++ ['"']))) =
      .ok (addToken (advanceN (initState ('"' :: (content ++ ['"']))) (content.length + 2))
        .STRING content 1 1) := by
    rw [nextToken_dispatch (f := content.length + 5) (by decide) hp (by decide)]
    simp only [if_pos rfl]
    exact hread
  refine ⟨(posAfter (1, 1) ('"' :: (content ++ ['"']))).1,
          (posAfter (1, 1) ('"' :: (content ++ ['"']))).2, ?_⟩
  rw [show content.length + 6 = content.length + 5 + 1 from rfl, tokenize]
  rw [tokenizeLoop, if_pos (by simp [initState])]
  simp only [hnext]
  have hloop2 : tokenizeLoop (content.length + 4 + 1)
      (addToken (advanceN (initState ('"' :: (content ++ ['"']))) (content.length + 2))
        .STRING content 1 1) =
      .ok (addToken (advanceN (initState ('"' :: (content ++ ['"']))) (content.length + 2))
        .STRING content 1 1) := by
    rw [tokenizeLoop, if_neg]
    rw [hAdv]
    simp [addToken, initState]
  rw [show tokenizeLoop (content.length + 5)
      = tokenizeLoop (content.length + 4 + 1) from rfl]
  simp only [hloop2]
  rw [hAdv]
  simp [addToken, initState]

/-! ## Claim C7: unterminated string literal -/

/-- Claim C7: when the opening quote is never matched before end of input,
`tokenize` fails with the unterminated-string lexical error carrying the
line and column of the opening quote (here: line `1 + a`, column `1 + b`
after a prefix of `a` newlines and `b` spaces), and no STRING token is
emitted (the thrown error aborts the run with no token list at all). -/
theorem unterminated_string_reports_opening_quote (a b : Nat) (content : List Char)
    (hc : '"' ∉ content) :
    tokenize (a + b + content.length + 6)
      (List.replicate a '\n' ++ (List.replicate b ' ' ++ ('"' :: content))) =
      .err ⟨.unterminatedString, 1 + a, 1 + b⟩ := by
  have hws := skipWhitespace_ws_prefix a b ('"' :: content)
    (a + b + content.length + 5 + 1) (by rfl) (by omega)
  have hdropws : (⟨List.replicate a '\n' ++ (List.replicate b ' ' ++ ('"' :: content)),
      a + b, 1 + a, 1 + b, []⟩ : LexState).source.drop
      (⟨List.replicate a '\n' ++ (List.replicate b ' ' ++ ('"' :: content)),
      a + b, 1 + a, 1 + b, []⟩ : LexState).currentPos = '"' :: content := by
    show (List.replicate a '\n' ++ (List.replicate b ' ' ++ ('"' :: content))).drop (a + b) = _
    rw [← List.append_assoc,
      show a + b = (List.replicate a '\n' ++ List.replicate b ' ').length by simp,
      List.drop_left]
  have hp := peek_of_drop hdropws
  have hreadErr := readString_unterminated (f := a + b + content.length + 5) hdropws hc (by omega)
  have hnext : nextToken (a + b + content.length + 5 + 1)
      (initState (List.replicate a '\n' ++ (List.replicate b ' ' ++ ('"' :: content)))) =
      .err ⟨.unterminatedString, 1 + a, 1 + b⟩ := by
    rw [nextToken]
    simp only [hws, hp]
    rw [readComment_no_slash _ _ (by rw [hp]; simp)]
    simp only [if_pos rfl]
    exact hreadErr
  rw [show a + b + content.length + 6 = a + b + content.length + 5 + 1 from rfl, tokenize]
  rw [tokenizeLoop, if_pos (by simp [initState])]
  simp only [hnext]

/-! ## Claim C10: a single-line comment reaching end of input is no error -/

/-- Claim C10: a `//` comment that reaches end of input without a
terminating newline is not an error: `tokenize` completes normally and the
comment contributes no tokens (only the two trailing EOF tokens appear:
one from `nextToken` reaching end of input after the comment, one appended
unconditionally by `tokenize`). -/
theorem line_comment_at_eof_completes (c : List Char) (h : '\n' ∉ c) :
    tokenize (c.length + 6) ('/' :: ('/' :: c)) =
      .ok [⟨.EOF, "EOF".data, 1, c.length + 3⟩, ⟨.EOF, "EOF".data, 1, c.length + 3⟩] := by
  have hd0 : (initState ('/' :: ('/' :: c))).source.drop
      (initState ('/' :: ('/' :: c))).currentPos = '/' :: ('/' :: c) := rfl
  have hp0 : peek (initState ('/' :: ('/' :: c))) = some '/' := peek_of_drop hd0
  have e1 : advance (initState ('/' :: ('/' :: c)))
      = (some '/', ⟨'/' :: ('/' :: c), 1, 1, 2, []⟩) := by
    rw [advance_cons hd0]; rfl
  have hd1 : (⟨'/' :: ('/' :: c), 1, 1, 2, []⟩ : LexState).source.drop
      (⟨'/' :: ('/' :: c), 1, 1, 2, []⟩ : LexState).currentPos = '/' :: c := rfl
  have hp1 : peek (⟨'/' :: ('/' :: c), 1, 1, 2, []⟩ : LexState) = some '/' :=
    peek_of_drop hd1
  have e2 : advance (⟨'/' :: ('/' :: c), 1, 1, 2, []⟩ : LexState)
      = (some '/', ⟨'/' :: ('/' :: c), 2, 1, 3, []⟩) := by
    rw [advance_cons hd1]; rfl
  have hd2 : (⟨'/' :: ('/' :: c), 2, 1, 3, []⟩ : LexState).source.drop
      (⟨'/' :: ('/' :: c), 2, 1, 3, []⟩ : LexState).currentPos = c ++ [] := by simp
  have hrun := lineCommentLoop_run c (c.length + 5) ⟨'/' :: ('/' :: c), 2, 1, 3, []⟩ []
    hd2 (fun x hx hx2 => h (hx2 ▸ hx)) (Or.inl rfl) (by omega)
  have hAdv := advanceN_state c (⟨'/' :: ('/' :: c), 2, 1, 3, []⟩ : LexState) [] hd2
  rw [show posAfter ((⟨'/' :: ('/' :: c), 2, 1, 3, []⟩ : LexState).line,
        (⟨'/' :: ('/' :: c), 2, 1, 3, []⟩ : LexState).column) c
      = (1, c.length + 3) by
    rw [posAfter_no_newline c _ h]; simp [Nat.add_comm]] at hAdv
  have hAdv2 : advanceN (⟨'/' :: ('/' :: c), 2, 1, 3, []⟩ : LexState) c.length
      = (⟨'/' :: ('/' :: c), 2 + c.length, 1, c.length + 3, []⟩ : LexState) := by
    rw [hAdv]
  have hrc : readComment (c.length + 5) (initState ('/' :: ('/' :: c))) =
      .ok (true, (⟨'/' :: ('/' :: c), 2 + c.length, 1, c.length + 3, []⟩ : LexState)) := by
    simp only [readComment, hp0, e1, hp1, e2, hrun, hAdv2]
    simp
  have hpe : peek (⟨'/' :: ('/' :: c), 2 + c.length, 1, c.length + 3, []⟩ : LexState)
      = none := by
    rw [peek]
    exact List.getElem?_eq_none (by simp only [List.length_cons]; omega)
  have hnext3 : nextToken (c.length + 4 + 1)
      (⟨'/' :: ('/' :: c), 2 + c.length, 1, c.length + 3, []⟩ : LexState) =
      .ok (⟨'/' :: ('/' :: c), 2 + c.length, 1, c.length + 3,
        [⟨.EOF, "EOF".data, 1, c.length + 3⟩]⟩ : LexState) := by
    rw [nextToken]
    rw [skipWhitespace_stop (by rw [hpe]; rfl)]
    simp only [hpe]
    rfl
  have hnextMain : nextToken (c.length + 5 + 1) (initState ('/' :: ('/' :: c))) =
      .ok (⟨'/' :: ('/' :: c), 2 + c.length, 1, c.length + 3,
        [⟨.EOF, "EOF".data, 1, c.length + 3⟩]⟩ : LexState) := by
    rw [nextToken]
    rw [skipWhitespace_stop (by rw [hp0]; rfl)]
    simp only [hp0, hrc]
    rw [show nextToken (c.length + 5) = nextToken (c.length + 4 + 1) from rfl]
    exact hnext3
  rw [show c.length + 6 = c.length + 5 + 1 from rfl, tokenize]
  rw [tokenizeLoop, if_pos (by simp [initState])]
  simp only [hnextMain]
  have hloop2 : tokenizeLoop (c.length + 4 + 1)
      (⟨'/' :: ('/' :: c), 2 + c.length, 1, c.length + 3,
        [⟨.EOF, "EOF".data, 1, c.length + 3⟩]⟩ : LexState) =
      .ok (⟨'/' :: ('/' :: c), 2 + c.length, 1, c.length + 3,
        [⟨.EOF, "EOF".data, 1, c.length + 3⟩]⟩ : LexState) := by
    rw [tokenizeLoop, if_neg]
    simp only [List.length_cons]
    omega
  rw [show tokenizeLoop (c.length + 5) = tokenizeLoop (c.length + 4 + 1) from rfl]
  simp only [hloop2]
  rfl

/-! ## Claim C8: unexpected-character errors -/

theorem operatorToken_lone_amp {st : LexState} {rest : List Char} (sl sc : Nat)
    (hdrop : st.source.drop st.currentPos = '&' :: rest)
    (hr : rest.head? ≠ some '&') :
    operatorToken '&' st sl sc = .err ⟨.unexpectedChar '&', sl, sc⟩ := by
  have hp1 : peek (advance st).2 = rest.head? := by
    rw [peek_eq_head_drop, drop_advance hdrop]
  simp [operatorToken, hp1, hr]

theorem operatorToken_lone_pipe {st : LexState} {rest : List Char} (sl sc : Nat)
    (hdrop : st.source.drop st.currentPos = '|' :: rest)
    (hr : rest.head? ≠ some '|') :
    operatorToken '|' st sl sc = .err ⟨.unexpectedChar '|', sl, sc⟩ := by
  have hp1 : peek (advance st).2 = rest.head? := by
    rw [peek_eq_head_drop, drop_advance hdrop]
  simp [operatorToken, hp1, hr]

theorem operatorToken_unmatched {c : Char} (hc : lexMatched c = false)
    (st : LexState) (sl sc : Nat) :
    operatorToken c st sl sc = .err ⟨.unexpectedChar c, sl, sc⟩ := by
  rw [lexMatched] at hc
  simp only [Bool.or_eq_false_iff, decide_eq_false_iff_not, List.mem_cons,
    List.not_mem_nil, or_false] at hc
  obtain ⟨⟨⟨⟨-, -⟩, -⟩, -⟩, hlist⟩ := hc
  push_neg at hlist
  obtain ⟨h1, h2, h3, h4, h5, h6, h7, h8, h9, h10, h11, h12, h13, h14, h15,
    h16, h17, h18, h19, h20, h21, h22⟩ := hlist
  simp only [operatorToken, if_neg h1, if_neg h2, if_neg h3, if_neg h4, if_neg h5,
    if_neg h6, if_neg h7, if_neg h8, if_neg h9, if_neg h10, if_neg h11, if_neg h12,
    if_neg h13, if_neg h14, if_neg h15, if_neg h16, if_neg h17, if_neg h18,
    if_neg h19, if_neg h20, if_neg h21, if_neg h22]

/-- Shared walk for claim C8: after a whitespace prefix, a character that
falls through to the operator `switch` and raises there surfaces as a
lexer error of the whole `tokenize` run, positioned at that character. -/
theorem tokenize_ws_prefix_unexpected (a b : Nat) (x : Char) (rest : List Char)
    (hxws : isWhitespace (some x) = false)
    (hq : x ≠ '"') (hd : isDigit (some x) = false)
    (hia : (isAlpha (some x) || x == '_') = false) (hslash : x ≠ '/')
    (hop : operatorToken x
      (⟨List.replicate a '\n' ++ (List.replicate b ' ' ++ (x :: rest)),
        a + b, 1 + a, 1 + b, []⟩ : LexState) (1 + a) (1 + b) =
      .err ⟨.unexpectedChar x, 1 + a, 1 + b⟩) :
    tokenize (a + b + 5)
      (List.replicate a '\n' ++ (List.replicate b ' ' ++ (x :: rest))) =
      .err ⟨.unexpectedChar x, 1 + a, 1 + b⟩ := by
  have hws := skipWhitespace_ws_prefix a b (x :: rest) (a + b + 4 + 1) hxws (by omega)
  have hdropws : (⟨List.replicate a '\n' ++ (List.replicate b ' ' ++ (x :: rest)),
      a + b, 1 + a, 1 + b, []⟩ : LexState).source.drop
      (⟨List.replicate a '\n' ++ (List.replicate b ' ' ++ (x :: rest)),
      a + b, 1 + a, 1 + b, []⟩ : LexState).currentPos = x :: rest := by
    show (List.replicate a '\n' ++ (List.replicate b ' ' ++ (x :: rest))).drop (a + b) = _
    rw [← List.append_assoc,
      show a + b = (List.replicate a '\n' ++ List.replicate b ' ').length by simp,
      List.drop_left]
  have hp := peek_of_drop hdropws
  have hnext : nextToken (a + b + 4 + 1)
      (initState (List.replicate a '\n' ++ (List.replicate b ' ' ++ (x :: rest)))) =
      .err ⟨.unexpectedChar x, 1 + a, 1 + b⟩ := by
    rw [nextToken]
    simp only [hws, hp]
    rw [readComment_no_slash _ _ (by rw [hp]; simp [hslash])]
    simp only [if_neg hq, hd, hia, Bool.false_eq_true, if_false]
    exact hop
  rw [show a + b + 5 = a + b + 4 + 1 from rfl, tokenize]
  rw [tokenizeLoop, if_pos (by simp [initState])]
  simp only [hnext]

/-- Claim C8: a lone ampersand, a lone pipe, and any character matched by
no lexing rule make `tokenize` fail with the unexpected-character error
carrying that character's line and column (line `1 + a`, column `1 + b`
after a prefix of `a` newlines and `b` spaces). -/
theorem unexpected_character_errors (a b : Nat) (rest : List Char) (c : Char) :
    (rest.head? ≠ some '&' →
      tokenize (a + b + 5)
        (List.replicate a '\n' ++ (List.replicate b ' ' ++ ('&' :: rest))) =
        .err ⟨.unexpectedChar '&', 1 + a, 1 + b⟩) ∧
    (rest.head? ≠ some '|' →
      tokenize (a + b + 5)
        (List.replicate a '\n' ++ (List.replicate b ' ' ++ ('|' :: rest))) =
        .err ⟨.unexpectedChar '|', 1 + a, 1 + b⟩) ∧
    (lexMatched c = false →
      tokenize (a + b + 5)
        (List.replicate a '\n' ++ (List.replicate b ' ' ++ (c :: rest))) =
        .err ⟨.unexpectedChar c, 1 + a, 1 + b⟩) := by
  refine ⟨fun hr => ?_, fun hr => ?_, fun hc => ?_⟩
  · refine tokenize_ws_prefix_unexpected a b '&' rest (by decide) (by decide)
      (by decide) (by decide) (by decide) ?_
    refine operatorToken_lone_amp (1 + a) (1 + b) ?_ hr
    show (List.replicate a '\n' ++ (List.replicate b ' ' ++ ('&' :: rest))).drop (a + b) = _
    rw [← List.append_assoc,
      show a + b = (List.replicate a '\n' ++ List.replicate b ' ').length by simp,
      List.drop_left]
  · refine tokenize_ws_prefix_unexpected a b '|' rest (by decide) (by decide)
      (by decide) (by decide) (by decide) ?_
    refine operatorToken_lone_pipe (1 + a) (1 + b) ?_ hr
    show (List.replicate a '\n' ++ (List.replicate b ' ' ++ ('|' :: rest))).drop (a + b) = _
    rw [← List.append_assoc,
      show a + b = (List.replicate a '\n' ++ List.replicate b ' ').length by simp,
      List.drop_left]
  · have hws : isWhitespace (some c) = false := by
      by_contra h'
      rw [Bool.not_eq_false] at h'
      rw [lexMatched, h'] at hc
      simp at hc
    have hq : c ≠ '"' := by
      rintro rfl
      rw [lexMatched] at hc
      simp at hc
    have hd : isDigitChar c = false := by
      by_contra h'
      rw [Bool.not_eq_false] at h'
      rw [lexMatched, h'] at hc
      simp at hc
    have his : isIdentStart c = false := by
      by_contra h'
      rw [Bool.not_eq_false] at h'
      rw [lexMatched, h'] at hc
      simp at hc
    have hslash : c ≠ '/' := by
      rintro rfl
      rw [lexMatched] at hc
      simp at hc
    rw [isIdentStart, Bool.or_eq_false_iff] at his
    refine tokenize_ws_prefix_unexpected a b c rest hws hq
      (show isDigitChar c = false from hd)
      (by simp [isAlpha, his.1]; simpa using his.2) hslash
      (operatorToken_unmatched hc _ (1 + a) (1 + b))

/-! ## Claim C9: hyphens are absorbed into identifier lexemes -/

theorem advanceN_source (st : LexState) (n : Nat) : (advanceN st n).source = st.source := by
  induction n generalizing st with
  | zero => rfl
  | succ n ih => rw [advanceN, ih, advance_source]

theorem advanceN_tokens (st : LexState) (n : Nat) : (advanceN st n).tokens = st.tokens := by
  induction n generalizing st with
  | zero => rfl
  | succ n ih => rw [advanceN, ih, advance_tokens]

theorem string_mk_ne_of_hyphen {v : List Char} (h : '-' ∈ v) (k : String)
    (hk : '-' ∉ k.data) : ¬ (k = String.mk v) := by
  intro he
  apply hk
  rw [he]
  exact h

theorem identTokenType_hyphen {v : List Char} (h : '-' ∈ v) :
    identTokenType (String.mk v) = .IDENTIFIER := by
  have hkeys : ∀ kv ∈ keywordsTable, '-' ∉ kv.1.data := by decide
  have hproto : ∀ k ∈ objectPrototypeKeys, '-' ∉ k.data := by decide
  have hfind : keywordsTable.find? (fun kv => kv.1 == String.mk v) = none := by
    rw [List.find?_eq_none]
    intro kv hkv
    simp only [beq_iff_eq]
    exact string_mk_ne_of_hyphen h kv.1 (hkeys kv hkv)
  have hmem : ¬ (String.mk v ∈ objectPrototypeKeys) := fun hm => (hproto _ hm) h
  rw [identTokenType, keywordsGet, hfind, if_neg hmem]
  rfl

/-- Character-class facts about an identifier-start character, needed to
steer `nextToken`'s dispatch. -/
theorem identStart_facts {c : Char} (h : isIdentStart c = true) :
    isWhitespace (some c) = false ∧ c ≠ '"' ∧ c ≠ '/' ∧ isDigitChar c = false ∧
      (isAlpha (some c) || c == '_') = true := by
  have hia : (isAlpha (some c) || c == '_') = true := by
    simpa [isAlpha, isIdentStart] using h
  simp only [isIdentStart, isAlphaChar, Bool.or_eq_true, Bool.and_eq_true,
    decide_eq_true_eq] at h
  have hdig : isDigitChar c = false := by
    rcases h with (⟨h1, _⟩ | ⟨h1, _⟩) | h1
    · have h9 : ¬ (c ≤ '9') := fun hle => absurd (le_trans h1 hle) (by decide)
      simp [isDigitChar, h9]
    · have h9 : ¬ (c ≤ '9') := fun hle => absurd (le_trans h1 hle) (by decide)
      simp [isDigitChar, h9]
    · subst h1; decide
  have hws : isWhitespace (some c) = false := by
    rcases h with (⟨h1, _⟩ | ⟨h1, _⟩) | h1
    · simp only [isWhitespace, Bool.or_eq_false_iff, decide_eq_false_iff_not]
      refine ⟨⟨⟨fun he => ?_, fun he => ?_⟩, fun he => ?_⟩, fun he => ?_⟩ <;>
        (rw [he] at h1; exact absurd h1 (by decide))
    · simp only [isWhitespace, Bool.or_eq_false_iff, decide_eq_false_iff_not]
      refine ⟨⟨⟨fun he => ?_, fun he => ?_⟩, fun he => ?_⟩, fun he => ?_⟩ <;>
        (rw [he] at h1; exact absurd h1 (by decide))
    · subst h1; decide
  have hq : c ≠ '"' := by
    rcases h with (⟨h1, _⟩ | ⟨h1, _⟩) | h1
    · rintro rfl; exact absurd h1 (by decide)
    · rintro rfl; exact absurd h1 (by decide)
    · subst h1; decide
  have hsl : c ≠ '/' := by
    rcases h with (⟨h1, _⟩ | ⟨h1, _⟩) | h1
    · rintro rfl; exact absurd h1 (by decide)
    · rintro rfl; exact absurd h1 (by decide)
    · subst h1; decide
  exact ⟨hws, hq, hsl, hdig, hia⟩

theorem readIdent_run {x rest : List Char} {f : Nat} {st : LexState}
    (hdrop : st.source.drop st.currentPos = x ++ rest)
    (hx : ∀ ch ∈ x, isIdentPart ch = true)
    (hstop : (isAlphaNumeric rest.head? || rest.head? == some '-') = false)
    (hf : x.length < f) :
    readIdentifierOrKeyword f st =
      .ok (addToken (advanceN st x.length) (identTokenType (String.mk x)) x
        st.line st.column) := by
  rw [readIdentifierOrKeyword]
  rw [identLoop_run x f st [] rest hdrop hx hstop hf]
  simp

/-- One `nextToken` step on an identifier lexeme `c0 :: xs` followed by a
stopping character. -/
theorem nextToken_ident_step {f : Nat} {st : LexState} {c0 : Char} {xs rest : List Char}
    (hdrop : st.source.drop st.currentPos = (c0 :: xs) ++ rest)
    (hstart : isIdentStart c0 = true)
    (hall : ∀ ch ∈ c0 :: xs, isIdentPart ch = true)
    (hstop : (isAlphaNumeric rest.head? || rest.head? == some '-') = false)
    (hf : xs.length + 1 < f) :
    nextToken (f + 1) st =
      .ok (addToken (advanceN st (xs.length + 1))
        (identTokenType (String.mk (c0 :: xs))) (c0 :: xs) st.line st.column) := by
  obtain ⟨hws, hq, hsl, hdig, hia⟩ := identStart_facts hstart
  rw [nextToken_dispatch hws (peek_of_drop (by simpa using hdrop)) hsl]
  simp only [if_neg hq, isDigit, hdig, Bool.false_eq_true, if_false, hia, if_true]
  exact readIdent_run hdrop hall hstop (by simpa using hf)

/-- One `nextToken` step on a semicolon. -/
theorem nextToken_semi_step {f : Nat} {st : LexState} {rest : List Char}
    (hdrop : st.source.drop st.currentPos = ';' :: rest) :
    nextToken (f + 1) st =
      .ok (addToken (advance st).2 .SEMICOLON [';'] st.line st.column) := by
  rw [nextToken_dispatch (by decide) (peek_of_drop hdrop) (by decide)]
  have h1 : (advance st).1 = some ';' := by rw [advance_cons hdrop]
  simp [operatorToken, h1, advValue, isDigit, isDigitChar, isAlpha, isAlphaChar]

/-- One `nextToken` step on a minus sign. -/
theorem nextToken_minus_step {f : Nat} {st : LexState} {rest : List Char}
    (hdrop : st.source.drop st.currentPos = '-' :: rest) :
    nextToken (f + 1) st =
      .ok (addToken (advance st).2 .MINUS ['-'] st.line st.column) := by
  rw [nextToken_dispatch (by decide) (peek_of_drop hdrop) (by decide)]
  have h1 : (advance st).1 = some '-' := by rw [advance_cons hdrop]
  simp [operatorToken, h1, advValue, isDigit, isDigitChar, isAlpha, isAlphaChar]

theorem tokenizeLoop_exit {f : Nat} {st : LexState}
    (h : st.source.length ≤ st.currentPos) :
    tokenizeLoop (f + 1) st = .ok st := by
  rw [tokenizeLoop, if_neg (by omega)]

/-- Claim C9: for identifiers `x = c0 :: xs` and `y`, the text `x-y` (here
terminated by a semicolon so that the scan loop stops) lexes as ONE
IDENTIFIER token whose value is the whole `x-y` lexeme — never as three
tokens — while a `-` not preceded by an identifier character (here: at the
start of the source) lexes as the MINUS operator. -/
theorem hyphen_absorbed_into_identifier (c0 : Char) (xs y : List Char)
    (hstart : isIdentStart c0 = true)
    (hxp : ∀ ch ∈ c0 :: xs, isIdentPart ch = true)
    (hy : y ≠ []) (hyall : ∀ ch ∈ y, isIdentPart ch = true) :
    firstToken (tokenize (xs.length + y.length + 10) ((c0 :: xs) ++ ('-' :: (y ++ [';'])))) =
      some ⟨.IDENTIFIER, (c0 :: xs) ++ '-' :: y, 1, 1⟩ ∧
    firstToken (tokenize (xs.length + 10) ('-' :: ((c0 :: xs) ++ [';'])))
      = some ⟨.MINUS, ['-'], 1, 1⟩ := by
  constructor
  · -- the whole lexeme, as a cons cell
    have hlex : (c0 :: xs) ++ '-' :: y = c0 :: (xs ++ '-' :: y) := by simp
    have hall : ∀ ch ∈ c0 :: (xs ++ '-' :: y), isIdentPart ch = true := by
      intro ch hch
      simp only [List.mem_cons, List.mem_append] at hch
      rcases hch with rfl | (hch | (rfl | hch))
      · exact hxp _ (by simp)
      · exact hxp _ (by simp [hch])
      · decide
      · exact hyall _ hch
    have hdrop : (initState ((c0 :: xs) ++ ('-' :: (y ++ [';'])))).source.drop
        (initState ((c0 :: xs) ++ ('-' :: (y ++ [';'])))).currentPos
        = (c0 :: (xs ++ '-' :: y)) ++ [';'] := by
      simp [initState]
    have hstep1 := nextToken_ident_step (f := xs.length + y.length + 9) hdrop hstart hall
      (by decide) (by simp; omega)
    have hW := drop_advanceN hdrop
    rw [show (c0 :: (xs ++ '-' :: y)).length = (xs ++ '-' :: y).length + 1 by simp] at hW
    have hdrop1 : (addToken (advanceN (initState ((c0 :: xs) ++ ('-' :: (y ++ [';']))))
        ((xs ++ '-' :: y).length + 1)) (identTokenType (String.mk (c0 :: (xs ++ '-' :: y))))
        (c0 :: (xs ++ '-' :: y)) 1 1).source.drop
        (addToken (advanceN (initState ((c0 :: xs) ++ ('-' :: (y ++ [';']))))
        ((xs ++ '-' :: y).length + 1)) (identTokenType (String.mk (c0 :: (xs ++ '-' :: y))))
        (c0 :: (xs ++ '-' :: y)) 1 1).currentPos = ';' :: [] := by
      simpa [addToken] using hW
    have hstep2 := nextToken_semi_step (f := xs.length + y.length + 8) hdrop1
    have hexit := pos_ge_of_drop (drop_advance hdrop1)
    rw [show xs.length + y.length + 10 = xs.length + y.length + 9 + 1 from rfl, tokenize]
    rw [tokenizeLoop, if_pos (by simp [initState])]
    simp only [show (initState ((c0 :: xs) ++ ('-' :: (y ++ [';'])))).line = 1 from rfl,
      show (initState ((c0 :: xs) ++ ('-' :: (y ++ [';'])))).column = 1 from rfl] at hstep1
    simp only [hstep1]
    rw [show tokenizeLoop (xs.length + y.length + 9)
        = tokenizeLoop (xs.length + y.length + 8 + 1) from rfl]
    rw [tokenizeLoop, if_pos (pos_lt_of_drop hdrop1)]
    simp only [hstep2]
    rw [show tokenizeLoop (xs.length + y.length + 8)
        = tokenizeLoop (xs.length + y.length + 7 + 1) from rfl]
    rw [tokenizeLoop_exit (by simpa [addToken] using hexit)]
    simp [firstToken, addToken, advanceN_tokens, advance_tokens, initState,
      identTokenType_hyphen (v := c0 :: (xs ++ '-' :: y)) (by simp), hlex]
  · have hdrop : (initState ('-' :: ((c0 :: xs) ++ [';']))).source.drop
        (initState ('-' :: ((c0 :: xs) ++ [';']))).currentPos
        = '-' :: ((c0 :: xs) ++ [';']) := by
      simp [initState]
    have hstep1 := nextToken_minus_step (f := xs.length + 9) hdrop
    have hdropA : (addToken (advance (initState ('-' :: ((c0 :: xs) ++ [';'])))).2
        .MINUS ['-'] 1 1).source.drop
        (addToken (advance (initState ('-' :: ((c0 :: xs) ++ [';'])))).2
        .MINUS ['-'] 1 1).currentPos = (c0 :: xs) ++ [';'] := by
      simpa [addToken] using drop_advance hdrop
    have hstep2 := nextToken_ident_step (f := xs.length + 8) hdropA hstart hxp
      (by decide) (by omega)
    have hW := drop_advanceN hdropA
    rw [show (c0 :: xs).length = xs.length + 1 by simp] at hW
    have hdrop2 : (addToken (advanceN (addToken
        (advance (initState ('-' :: ((c0 :: xs) ++ [';'])))).2 .MINUS ['-'] 1 1)
        (xs.length + 1)) (identTokenType (String.mk (c0 :: xs))) (c0 :: xs)
        (addToken (advance (initState ('-' :: ((c0 :: xs) ++ [';'])))).2
          .MINUS ['-'] 1 1).line
        (addToken (advance (initState ('-' :: ((c0 :: xs) ++ [';'])))).2
          .MINUS ['-'] 1 1).column).source.drop
        (addToken (advanceN (addToken
        (advance (initState ('-' :: ((c0 :: xs) ++ [';'])))).2 .MINUS ['-'] 1 1)
        (xs.length + 1)) (identTokenType (String.mk (c0 :: xs))) (c0 :: xs)
        (addToken (advance (initState ('-' :: ((c0 :: xs) ++ [';'])))).2
          .MINUS ['-'] 1 1).line
        (addToken (advance (initState ('-' :: ((c0 :: xs) ++ [';'])))).2
          .MINUS ['-'] 1 1).column).currentPos = ';' :: [] := by
      simpa [addToken] using hW
    have hstep3 := nextToken_semi_step (f := xs.length + 7) hdrop2
    have hexit := pos_ge_of_drop (drop_advance hdrop2)
    rw [show xs.length + 10 = xs.length + 9 + 1 from rfl, tokenize]
    rw [tokenizeLoop, if_pos (by simp [initState])]
    simp only [show (initState ('-' :: ((c0 :: xs) ++ [';']))).line = 1 from rfl,
      show (initState ('-' :: ((c0 :: xs) ++ [';']))).column = 1 from rfl] at hstep1
    simp only [hstep1]
    rw [show tokenizeLoop (xs.length + 9) = tokenizeLoop (xs.length + 8 + 1) from rfl]
    rw [tokenizeLoop, if_pos (pos_lt_of_drop hdropA)]
    simp only [hstep2]
    rw [show tokenizeLoop (xs.length + 8) = tokenizeLoop (xs.length + 7 + 1) from rfl]
    rw [tokenizeLoop, if_pos (pos_lt_of_drop hdrop2)]
    simp only [hstep3]
    rw [show tokenizeLoop (xs.length + 7) = tokenizeLoop (xs.length + 6 + 1) from rfl]
    rw [tokenizeLoop_exit (by simpa [addToken] using hexit)]
    simp [firstToken, addToken, advanceN_tokens, advance_tokens, initState]

/-! ## Claim C1: shape of a successful token list -/

theorem skipWhitespace_ok_spec : ∀ (f : Nat) (st st' : LexState),
    skipWhitespace f st = .ok st' →
    st'.source = st.source ∧ st'.tokens = st.tokens := by
  intro f
  induction f with
  | zero => intro st st' h; simp [skipWhitespace] at h
  | succ f ih =>
    intro st st' h
    rw [skipWhitespace] at h
    split at h
    · have hrec := ih _ _ h
      rw [advance_source, advance_tokens] at hrec
      exact hrec
    · cases h; exact ⟨rfl, rfl⟩

theorem lineCommentLoop_ok_spec : ∀ (f : Nat) (st st' : LexState),
    lineCommentLoop f st = .ok st' →
    st'.source = st.source ∧ st'.tokens = st.tokens := by
  intro f
  induction f with
  | zero => intro st st' h; simp [lineCommentLoop] at h
  | succ f ih =>
    intro st st' h
    rw [lineCommentLoop] at h
    cases hp : peek st with
    | none => simp only [hp] at h; cases h; exact ⟨rfl, rfl⟩
    | some c =>
      simp only [hp] at h
      split at h
      · cases h; exact ⟨rfl, rfl⟩
      · have hrec := ih _ _ h
        rw [advance_source, advance_tokens] at hrec
        exact hrec

theorem blockCommentLoop_ok_spec : ∀ (f : Nat) (st : LexState) (sl sc : Nat)
    (st' : LexState), blockCommentLoop f st sl sc = .ok st' →
    st'.source = st.source ∧ st'.tokens = st.tokens := by
  intro f
  induction f with
  | zero => intro st sl sc st' h; simp [blockCommentLoop] at h
  | succ f ih =>
    intro st sl sc st' h
    rw [blockCommentLoop] at h
    cases hp : peek st with
    | none => simp [hp] at h
    | some c =>
      simp only [hp] at h
      split at h
      · cases h
        simp [advance_source, advance_tokens]
      · have hrec := ih _ _ _ _ h
        rw [advance_source, advance_tokens] at hrec
        exact hrec

theorem readComment_ok_spec (f : Nat) (st : LexState) (b : Bool) (st' : LexState)
    (h : readComment f st = .ok (b, st')) :
    st'.source = st.source ∧ st'.tokens = st.tokens := by
  simp only [readComment] at h
  split at h
  · split at h
    · cases hl : lineCommentLoop f (advance (advance st).2).2 with
      | ok st₂ =>
        simp only [hl] at h
        cases h
        have hrec := lineCommentLoop_ok_spec _ _ _ hl
        rw [advance_source, advance_source, advance_tokens, advance_tokens] at hrec
        exact hrec
      | err e => simp [hl] at h
      | fuelOut => simp [hl] at h
    · split at h
      · cases hl : blockCommentLoop f (advance (advance st).2).2 st.line st.column with
        | ok st₂ =>
          simp only [hl] at h
          cases h
          have hrec := blockCommentLoop_ok_spec _ _ _ _ _ hl
          rw [advance_source, advance_source, advance_tokens, advance_tokens] at hrec
          exact hrec
        | err e => simp [hl] at h
        | fuelOut => simp [hl] at h
      · cases h
        split <;> simp [advance_source, advance_tokens]
  · cases h; exact ⟨rfl, rfl⟩

theorem stringLoop_ok_spec : ∀ (f : Nat) (st : LexState) (v : List Char)
    (st' : LexState) (v' : List Char), stringLoop f st v = .ok (st', v') →
    st'.source = st.source ∧ st'.tokens = st.tokens := by
  intro f
  induction f with
  | zero => intro st v st' v' h; simp [stringLoop] at h
  | succ f ih =>
    intro st v st' v' h
    rw [stringLoop] at h
    cases hp : peek st with
    | none => simp only [hp] at h; cases h; exact ⟨rfl, rfl⟩
    | some c =>
      simp only [hp] at h
      split at h
      · cases h; exact ⟨rfl, rfl⟩
      · have hrec := ih _ _ _ _ h
        rw [advance_source, advance_tokens] at hrec
        exact hrec

theorem numberLoop_ok_spec : ∀ (f : Nat) (st : LexState) (v : List Char)
    (st' : LexState) (v' : List Char), numberLoop f st v = .ok (st', v') →
    st'.source = st.source ∧ st'.tokens = st.tokens := by
  intro f
  induction f with
  | zero => intro st v st' v' h; simp [numberLoop] at h
  | succ f ih =>
    intro st v st' v' h
    simp only [numberLoop] at h
    split at h
    · have hrec := ih _ _ _ _ h
      rw [advance_source, advance_tokens] at hrec
      exact hrec
    · cases h; exact ⟨rfl, rfl⟩

theorem identLoop_ok_spec : ∀ (f : Nat) (st : LexState) (v : List Char)
    (st' : LexState) (v' : List Char), identLoop f st v = .ok (st', v') →
    st'.source = st.source ∧ st'.tokens = st.tokens := by
  intro f
  induction f with
  | zero => intro st v st' v' h; simp [identLoop] at h
  | succ f ih =>
    intro st v st' v' h
    simp only [identLoop] at h
    split at h
    · have hrec := ih _ _ _ _ h
      rw [advance_source, advance_tokens] at hrec
      exact hrec
    · cases h; exact ⟨rfl, rfl⟩

theorem readString_ok_spec (f : Nat) (st st' : LexState)
    (h : readString f st = .ok st') :
    st'.source = st.source ∧
    ∃ t, st'.tokens = st.tokens ++ [t] ∧ t.type = .STRING := by
  simp only [readString] at h
  split at h
  · simp at h
  · cases hl : stringLoop f (advance st).2 [] with
    | ok pr =>
      obtain ⟨st₂, v⟩ := pr
      simp only [hl] at h
      have hrec := stringLoop_ok_spec _ _ _ _ _ hl
      rw [advance_source, advance_tokens] at hrec
      cases hp : peek st₂ with
      | none => simp [hp] at h
      | some c =>
        simp only [hp] at h
        cases h
        refine ⟨?_, ⟨⟨.STRING, v, st.line, st.column⟩, ?_, rfl⟩⟩
        · simp [addToken, advance_source, hrec.1]
        · simp [addToken, advance_tokens, hrec.2]
    | err e => simp [hl] at h
    | fuelOut => simp [hl] at h

theorem readNumber_ok_spec (f : Nat) (st st' : LexState)
    (h : readNumber f st = .ok st') :
    st'.source = st.source ∧
    ∃ t, st'.tokens = st.tokens ++ [t] ∧ t.type = .NUMBER := by
  simp only [readNumber] at h
  cases hl : numberLoop f st [] with
  | ok pr =>
    obtain ⟨st₁, v⟩ := pr
    simp only [hl] at h
    have hrec := numberLoop_ok_spec _ _ _ _ _ hl
    split at h
    · cases hl2 : numberLoop f (advance st₁).2 (v ++ jsStr (advance st₁).1) with
      | ok pr2 =>
        obtain ⟨st₃, v₂⟩ := pr2
        simp only [hl2] at h
        cases h
        have hrec2 := numberLoop_ok_spec _ _ _ _ _ hl2
        rw [advance_source, advance_tokens] at hrec2
        refine ⟨?_, ⟨⟨.NUMBER, v₂, st.line, st.column⟩, ?_, rfl⟩⟩
        · simp [addToken, hrec2.1, hrec.1]
        · simp [addToken, hrec2.2, hrec.2]
      | err e => simp [hl2] at h
      | fuelOut => simp [hl2] at h
    · cases h
      refine ⟨?_, ⟨⟨.NUMBER, v, st.line, st.column⟩, ?_, rfl⟩⟩
      · simp [addToken, hrec.1]
      · simp [addToken, hrec.2]
  | err e => simp [hl] at h
  | fuelOut => simp [hl] at h

theorem identTokenType_ne_EOF (s : String) : identTokenType s ≠ .EOF := by
  rw [identTokenType]
  cases hf : keywordsTable.find? (fun kv => kv.1 == s) with
  | some kv =>
    have hm := List.mem_of_find?_eq_some hf
    have hall : ∀ kv ∈ keywordsTable, kv.2 ≠ TokenTy.EOF := by decide
    simp [keywordsGet, hf]
    exact hall kv hm
  | none =>
    simp only [keywordsGet, hf]
    split <;> simp

theorem readIdentifierOrKeyword_ok_spec (f : Nat) (st st' : LexState)
    (h : readIdentifierOrKeyword f st = .ok st') :
    st'.source = st.source ∧
    ∃ t, st'.tokens = st.tokens ++ [t] ∧ t.type ≠ .EOF := by
  simp only [readIdentifierOrKeyword] at h
  cases hl : identLoop f st [] with
  | ok pr =>
    obtain ⟨st₁, v⟩ := pr
    simp only [hl] at h
    cases h
    have hrec := identLoop_ok_spec _ _ _ _ _ hl
    refine ⟨?_, ⟨⟨identTokenType (String.mk v), v, st.line, st.column⟩, ?_, ?_⟩⟩
    · simp [addToken, hrec.1]
    · simp [addToken, hrec.2]
    · exact identTokenType_ne_EOF _
  | err e => simp [hl] at h
  | fuelOut => simp [hl] at h

theorem okAddToken_spec {S : List Char} {T : List Token} {Z : LexState} {ty : TokenTy}
    {v : List Char} {sl sc : Nat} {st' : LexState}
    (h : LexRes.ok (addToken Z ty v sl sc) = .ok st')
    (hsrc : Z.source = S) (htok : Z.tokens = T) (hty : ty ≠ .EOF) :
    st'.source = S ∧ ∃ t, st'.tokens = T ++ [t] ∧ t.type ≠ .EOF := by
  cases h
  exact ⟨by simp [addToken, hsrc], ⟨⟨ty, v, sl, sc⟩, by simp [addToken, htok], hty⟩⟩

set_option maxHeartbeats 1000000 in
theorem operatorToken_ok_spec (ch : Char) (st : LexState) (sl sc : Nat)
    (st' : LexState) (h : operatorToken ch st sl sc = .ok st') :
    st'.source = st.source ∧
    ∃ t, st'.tokens = st.tokens ++ [t] ∧ t.type ≠ .EOF := by
  unfold operatorToken at h
  dsimp only [] at h
  by_cases c1 : ch = '='
  · rw [if_pos c1] at h
    split at h <;>
      exact okAddToken_spec h (by simp [advance_source]) (by simp [advance_tokens]) (by decide)
  · rw [if_neg c1] at h
    by_cases c2 : ch = '!'
    · rw [if_pos c2] at h
      split at h <;>
        exact okAddToken_spec h (by simp [advance_source]) (by simp [advance_tokens]) (by decide)
    · rw [if_neg c2] at h
      by_cases c3 : ch = '<'
      · rw [if_pos c3] at h
        split at h <;>
          exact okAddToken_spec h (by simp [advance_source]) (by simp [advance_tokens]) (by decide)
      · rw [if_neg c3] at h
        by_cases c4 : ch = '>'
        · rw [if_pos c4] at h
          split at h <;>
            exact okAddToken_spec h (by simp [advance_source]) (by simp [advance_tokens]) (by decide)
        · rw [if_neg c4] at h
          by_cases c5 : ch = '&'
          · rw [if_pos c5] at h
            split at h
            · exact okAddToken_spec h (by simp [advance_source]) (by simp [advance_tokens]) (by decide)
            · cases h
          · rw [if_neg c5] at h
            by_cases c6 : ch = '|'
            · rw [if_pos c6] at h
              split at h
              · exact okAddToken_spec h (by simp [advance_source]) (by simp [advance_tokens]) (by decide)
              · cases h
            · rw [if_neg c6] at h
              by_cases c7 : ch = '+'
              · rw [if_pos c7] at h
                exact okAddToken_spec h (by simp [advance_source]) (by simp [advance_tokens]) (by decide)
              · rw [if_neg c7] at h
                by_cases c8 : ch = '-'
                · rw [if_pos c8] at h
                  exact okAddToken_spec h (by simp [advance_source]) (by simp [advance_tokens]) (by decide)
                · rw [if_neg c8] at h
                  by_cases c9 : ch = '*'
                  · rw [if_pos c9] at h
                    exact okAddToken_spec h (by simp [advance_source]) (by simp [advance_tokens]) (by decide)
                  · rw [if_neg c9] at h
                    by_cases c10 : ch = '%'
                    · rw [if_pos c10] at h
                      exact okAddToken_spec h (by simp [advance_source]) (by simp [advance_tokens]) (by decide)
                    · rw [if_neg c10] at h
                      by_cases c11 : ch = '('
                      · rw [if_pos c11] at h
                        exact okAddToken_spec h (by simp [advance_source]) (by simp [advance_tokens]) (by decide)
                      · rw [if_neg c11] at h
                        by_cases c12 : ch = ')'
                        · rw [if_pos c12] at h
                          exact okAddToken_spec h (by simp [advance_source]) (by simp [advance_tokens]) (by decide)
                        · rw [if_neg c12] at h
                          by_cases c13 : ch = '{'
                          · rw [if_pos c13] at h
                            exact okAddToken_spec h (by simp [advance_source]) (by simp [advance_tokens]) (by decide)
                          · rw [if_neg c13] at h
                            by_cases c14 : ch = '}'
                            · rw [if_pos c14] at h
                              exact okAddToken_spec h (by simp [advance_source]) (by simp [advance_tokens]) (by decide)
                            · rw [if_neg c14] at h
                              by_cases c15 : ch = '['
                              · rw [if_pos c15] at h
                                exact okAddToken_spec h (by simp [advance_source]) (by simp [advance_tokens]) (by decide)
                              · rw [if_neg c15] at h
                                by_cases c16 : ch = ']'
                                · rw [if_pos c16] at h
                                  exact okAddToken_spec h (by simp [advance_source]) (by simp [advance_tokens]) (by decide)
                                · rw [if_neg c16] at h
                                  by_cases c17 : ch = ','
                                  · rw [if_pos c17] at h
                                    exact okAddToken_spec h (by simp [advance_source]) (by simp [advance_tokens]) (by decide)
                                  · rw [if_neg c17] at h
                                    by_cases c18 : ch = ';'
                                    · rw [if_pos c18] at h
                                      exact okAddToken_spec h (by simp [advance_source]) (by simp [advance_tokens]) (by decide)
                                    · rw [if_neg c18] at h
                                      by_cases c19 : ch = ':'
                                      · rw [if_pos c19] at h
                                        exact okAddToken_spec h (by simp [advance_source]) (by simp [advance_tokens]) (by decide)
                                      · rw [if_neg c19] at h
                                        by_cases c20 : ch = '.'
                                        · rw [if_pos c20] at h
                                          exact okAddToken_spec h (by simp [advance_source]) (by simp [advance_tokens]) (by decide)
                                        · rw [if_neg c20] at h
                                          by_cases c21 : ch = '@'
                                          · rw [if_pos c21] at h
                                            exact okAddToken_spec h (by simp [advance_source]) (by simp [advance_tokens]) (by decide)
                                          · rw [if_neg c21] at h
                                            by_cases c22 : ch = '/'
                                            · rw [if_pos c22] at h
                                              exact okAddToken_spec h (by simp [advance_source]) (by simp [advance_tokens]) (by decide)
                                            · rw [if_neg c22] at h
                                              cases h

theorem nextToken_ok_spec : ∀ (fuel : Nat) (st st' : LexState),
    nextToken fuel st = .ok st' →
    st'.source = st.source ∧
    ∃ t, st'.tokens = st.tokens ++ [t] ∧
      (t.type = .EOF → st'.source.length ≤ st'.currentPos) := by
  intro fuel
  induction fuel with
  | zero => intro st st' h; simp [nextToken] at h
  | succ fuel ih =>
    intro st st' h
    rw [nextToken] at h
    cases hsw : skipWhitespace (fuel + 1) st with
    | err e => simp [hsw] at h
    | fuelOut => simp [hsw] at h
    | ok st₁ =>
      simp only [hsw] at h
      obtain ⟨hsrc1, htok1⟩ := skipWhitespace_ok_spec _ _ _ hsw
      cases hp : peek st₁ with
      | none =>
        simp only [hp] at h
        cases h
        refine ⟨by simp [addToken, hsrc1], ⟨⟨.EOF, "EOF".data, st₁.line, st₁.column⟩,
          by simp [addToken, htok1], fun _ => ?_⟩⟩
        have hnone : st₁.source[st₁.currentPos]? = none := hp
        rw [List.getElem?_eq_none_iff] at hnone
        simpa [addToken] using hnone
      | some char =>
        simp only [hp] at h
        cases hrc : readComment fuel st₁ with
        | err e => simp [hrc] at h
        | fuelOut => simp [hrc] at h
        | ok pr =>
          obtain ⟨b, st₂⟩ := pr
          obtain ⟨hsrc2, htok2⟩ := readComment_ok_spec _ _ _ _ hrc
          cases b with
          | true =>
            simp only [hrc] at h
            obtain ⟨hs, t, ht, he⟩ := ih st₂ st' h
            exact ⟨by rw [hs, hsrc2, hsrc1], t, by rw [ht, htok2, htok1], he⟩
          | false =>
            simp only [hrc] at h
            split_ifs at h with h1 h2 h3
            · obtain ⟨hs, t, ht, hty⟩ := readString_ok_spec _ _ _ h
              exact ⟨by rw [hs, hsrc2, hsrc1], t, by rw [ht, htok2, htok1],
                fun he => absurd (hty ▸ he : TokenTy.STRING = .EOF) (by decide)⟩
            · obtain ⟨hs, t, ht, hty⟩ := readNumber_ok_spec _ _ _ h
              exact ⟨by rw [hs, hsrc2, hsrc1], t, by rw [ht, htok2, htok1],
                fun he => absurd (hty ▸ he : TokenTy.NUMBER = .EOF) (by decide)⟩
            · obtain ⟨hs, t, ht, hty⟩ := readIdentifierOrKeyword_ok_spec _ _ _ h
              exact ⟨by rw [hs, hsrc2, hsrc1], t, by rw [ht, htok2, htok1],
                fun he => absurd he hty⟩
            · obtain ⟨hs, t, ht, hty⟩ := operatorToken_ok_spec _ _ _ _ _ h
              exact ⟨by rw [hs, hsrc2, hsrc1], t, by rw [ht, htok2, htok1],
                fun he => absurd he hty⟩

theorem tokenizeLoop_ok_spec : ∀ (fuel : Nat) (st st' : LexState),
    tokenizeLoop fuel st = .ok st' →
    ∃ Δ, st'.tokens = st.tokens ++ Δ ∧ ∀ t ∈ Δ.dropLast, t.type ≠ .EOF := by
  intro fuel
  induction fuel with
  | zero => intro st st' h; simp [tokenizeLoop] at h
  | succ fuel ih =>
    intro st st' h
    rw [tokenizeLoop] at h
    split at h
    · cases hnt : nextToken (fuel + 1) st with
      | err e => simp [hnt] at h
      | fuelOut => simp [hnt] at h
      | ok st₁ =>
        simp only [hnt] at h
        obtain ⟨hs, t, ht, he⟩ := nextToken_ok_spec _ _ _ hnt
        by_cases hEOF : t.type = .EOF
        · cases fuel with
          | zero => simp [tokenizeLoop] at h
          | succ f =>
            rw [tokenizeLoop_exit (he hEOF)] at h
            cases h
            exact ⟨[t], ht, by simp⟩
        · obtain ⟨Δ, hΔ, hP⟩ := ih st₁ st' h
          refine ⟨t :: Δ, by rw [hΔ, ht]; simp, ?_⟩
          intro u hu
          cases Δ with
          | nil => simp at hu
          | cons d ds =>
            simp only [List.dropLast, List.mem_cons] at hu
            rcases hu with rfl | hu
            · exact hEOF
            · exact hP u (by simpa [List.dropLast] using hu)
    · cases h
      exact ⟨[], by simp, by simp⟩

/-- Claim C1 (amended): a successful `tokenize` run returns a nonempty
token list that ENDS in EOF tokens — one or two of them, and no EOF token
appears anywhere else.  (The claim's "exactly one" fails: when trailing
whitespace or a trailing comment moves the scan position to the end of the
input, `nextToken` emits an EOF token and `tokenize` then appends a second
one, as the counterexample on the one-space source shows.) -/
theorem tokenize_eof_suffix (fuel : Nat) (src : List Char) (toks : List Token)
    (h : tokenize fuel src = .ok toks) :
    ∃ pre suf, toks = pre ++ suf ∧ (∀ t ∈ pre, t.type ≠ .EOF) ∧
      (∀ t ∈ suf, t.type = .EOF) ∧ (suf.length = 1 ∨ suf.length = 2) := by
  rw [tokenize] at h
  cases hl : tokenizeLoop fuel (initState src) with
  | err e => simp [hl] at h
  | fuelOut => simp [hl] at h
  | ok stF =>
    simp only [hl] at h
    cases h
    obtain ⟨Δ, hΔ, hP⟩ := tokenizeLoop_ok_spec _ _ _ hl
    rw [show (initState src).tokens = [] from rfl] at hΔ
    simp only [List.nil_append] at hΔ
    rw [hΔ]
    rcases Δ.eq_nil_or_concat with rfl | ⟨l', a, hcat⟩
    · exact ⟨[], [⟨.EOF, "EOF".data, stF.line, stF.column⟩], by simp, by simp,
        by simp, Or.inl rfl⟩
    · rw [List.concat_eq_append] at hcat
      subst hcat
      rw [List.dropLast_concat] at hP
      by_cases ha : a.type = .EOF
      · refine ⟨l', [a, ⟨.EOF, "EOF".data, stF.line, stF.column⟩], by simp, hP, ?_, Or.inr rfl⟩
        intro t ht
        rcases List.mem_pair.mp ht with rfl | rfl
        · exact ha
        · rfl
      · refine ⟨l' ++ [a], [⟨.EOF, "EOF".data, stF.line, stF.column⟩], by simp, ?_,
          by simp, Or.inl rfl⟩
        intro t ht
        rcases List.mem_append.mp ht with ht | ht
        · exact hP t ht
        · rw [List.mem_singleton.mp ht]; exact ha

/-- Witness for the amended claim C1, at the one-semicolon source. -/
theorem tokenize_eof_suffix_witness :
    ∃ pre suf, ([⟨.SEMICOLON, [';'], 1, 1⟩, ⟨.EOF, "EOF".data, 1, 2⟩] : List Token)
        = pre ++ suf ∧ (∀ t ∈ pre, t.type ≠ .EOF) ∧
      (∀ t ∈ suf, t.type = .EOF) ∧ (suf.length = 1 ∨ suf.length = 2) :=
  tokenize_eof_suffix 10 [';'] _ (by decide)

/-- Witness for claim C6 at a content with a backslash and a newline. -/
theorem string_literal_taken_verbatim_witness :
    ∃ l c, tokenize ((['a', '\\', '\n', 'b'] : List Char).length + 6)
        ('"' :: (['a', '\\', '\n', 'b'] ++ ['"'])) =
      .ok [⟨.STRING, ['a', '\\', '\n', 'b'], 1, 1⟩, ⟨.EOF, "EOF".data, l, c⟩] :=
  string_literal_taken_verbatim ['a', '\\', '\n', 'b'] (by decide)

/-- Witness for claim C7: opening quote at line 2, column 3. -/
theorem unterminated_string_reports_opening_quote_witness :
    tokenize (1 + 2 + 2 + 6)
      (List.replicate 1 '\n' ++ (List.replicate 2 ' ' ++ ('"' :: ['x', '\\']))) =
      .err ⟨.unterminatedString, 2, 3⟩ :=
  unterminated_string_reports_opening_quote 1 2 ['x', '\\'] (by decide)

/-- Witness for claim C8: a lone ampersand and a hash character, both at
line 2, column 3. -/
theorem unexpected_character_errors_witness :
    tokenize (1 + 2 + 5) (List.replicate 1 '\n' ++ (List.replicate 2 ' ' ++ ('&' :: [';']))) =
      .err ⟨.unexpectedChar '&', 2, 3⟩ ∧
    tokenize (1 + 2 + 5) (List.replicate 1 '\n' ++ (List.replicate 2 ' ' ++ ('#' :: [';']))) =
      .err ⟨.unexpectedChar '#', 2, 3⟩ :=
  ⟨(unexpected_character_errors 1 2 [';'] '#').1 (by decide),
   (unexpected_character_errors 1 2 [';'] '#').2.2 (by decide)⟩

/-- Witness for claim C9 at the identifiers `a` and `b`. -/
theorem hyphen_absorbed_into_identifier_witness :
    firstToken (tokenize (([] : List Char).length + (['b'] : List Char).length + 10)
        (('a' :: []) ++ ('-' :: (['b'] ++ [';'])))) =
      some ⟨.IDENTIFIER, ('a' :: []) ++ '-' :: ['b'], 1, 1⟩ ∧
    firstToken (tokenize (([] : List Char).length + 10) ('-' :: (('a' :: []) ++ [';'])))
      = some ⟨.MINUS, ['-'], 1, 1⟩ :=
  hyphen_absorbed_into_identifier 'a' [] ['b'] (by decide) (by decide) (by decide) (by decide)

/-- Witness for claim C10 at a comment body with a space and a quote. -/
theorem line_comment_at_eof_completes_witness :
    tokenize ((['a', ' ', '"'] : List Char).length + 6) ('/' :: ('/' :: ['a', ' ', '"'])) =
      .ok [⟨.EOF, "EOF".data, 1, (['a', ' ', '"'] : List Char).length + 3⟩,
           ⟨.EOF, "EOF".data, 1, (['a', ' ', '"'] : List Char).length + 3⟩] :=
  line_comment_at_eof_completes ['a', ' ', '"'] (by decide)

end Homy
